import Mathlib

/-!
# PixpCodecJS — verification of the Pixp binary container codec

Shallow embedding of `src/PixpEncoder.js` (classes `PixpEncoder` and
`PixpDecoder`).  Byte buffers (`ArrayBuffer`) are modelled as `List Nat`
(each entry one byte), UTF-16 code-unit buffers (`Uint16Array`) as
`List Nat` (each entry one code unit), and JS strings as `List Char`.
JSON-serializable JS values are modelled by the inductive type `Json`;
the host primitive `JSON.stringify` is modelled by an executable printer
`stringify`, and the inverse `JSON.parse` (a host primitive, not present
in the repository source) by the executable fuel-based parser `parseJ`.
-/

namespace Pixp

/-- JSON-serializable JS values.  Strings are lists of UTF-16 BMP chars;
numbers are modelled as integers (`Int`). -/
inductive Json where
  | null : Json
  | bool (b : Bool) : Json
  | num (n : Int) : Json
  | str (s : List Char) : Json
  | arr (elems : List Json) : Json
  | obj (fields : List (List Char × Json)) : Json

/-- The opening-brace character, `U+007B`. -/
def lbrace : Char := Char.ofNat 123

/-- The closing-brace character, `U+007D`. -/
def rbrace : Char := Char.ofNat 125

/-- JSON text of `null`. -/
def litNull : List Char := ['n', 'u', 'l', 'l']

/-- JSON text of `true`. -/
def litTrue : List Char := ['t', 'r', 'u', 'e']

/-- JSON text of `false`. -/
def litFalse : List Char := ['f', 'a', 'l', 's', 'e']

/-- Decimal digit character for a digit value `d < 10` (total, clamping at 9). -/
def digitChar (d : Nat) : Char :=
  match d with
  | 0 => '0' | 1 => '1' | 2 => '2' | 3 => '3' | 4 => '4'
  | 5 => '5' | 6 => '6' | 7 => '7' | 8 => '8' | _ => '9'

/-- Decimal digits of `n`, most significant first, empty for `0`;
the fuel (first argument) must be at least `n`. -/
def natToCharsAux : Nat → Nat → List Char
  | 0, _ => []
  | f + 1, n => if n = 0 then [] else natToCharsAux f (n / 10) ++ [digitChar (n % 10)]

/-- Decimal rendering of a natural number, most significant digit first,
as JS `String(n)` renders integers. -/
def natToChars (n : Nat) : List Char :=
  if n = 0 then ['0'] else natToCharsAux n n

/-- Decimal rendering of an integer, as JS `String(n)`/`JSON.stringify`
render integral numbers. -/
def intToChars (n : Int) : List Char :=
  if n < 0 then '-' :: natToChars n.natAbs else natToChars n.toNat

mutual

/-- Model of the host primitive `JSON.stringify` on JSON-serializable
values: renders a `Json` value as its JSON text (no added whitespace,
object keys in insertion order, as V8 renders it). -/
def stringify : Json → List Char
  | .null => litNull
  | .bool true => litTrue
  | .bool false => litFalse
  | .num n => intToChars n
  | .str s => '"' :: s ++ ['"']
  | .arr [] => ['[', ']']
  | .arr (x :: xs) => '[' :: (stringify x ++ stringifyArrTail xs) ++ [']']
  | .obj [] => [lbrace, rbrace]
  | .obj (kv :: kvs) => lbrace :: (stringifyMember kv ++ stringifyObjTail kvs) ++ [rbrace]

/-- Renders `,elem` for each remaining array element. -/
def stringifyArrTail : List Json → List Char
  | [] => []
  | x :: xs => ',' :: (stringify x ++ stringifyArrTail xs)

/-- Renders one object member `"key":value`. -/
def stringifyMember : List Char × Json → List Char
  | (k, v) => '"' :: k ++ '"' :: ':' :: stringify v

/-- Renders `,member` for each remaining object member. -/
def stringifyObjTail : List (List Char × Json) → List Char
  | [] => []
  | kv :: kvs => ',' :: (stringifyMember kv ++ stringifyObjTail kvs)

end

/-- Is `c` a decimal digit character? -/
def isDigitCh (c : Char) : Bool := 48 ≤ c.toNat && c.toNat ≤ 57

/-- Digit value of a digit character. -/
def digitVal (c : Char) : Nat := c.toNat - 48

/-- Accumulate the value of a big-endian digit-character list. -/
def charsToNat (ds : List Char) : Nat :=
  ds.foldl (fun acc c => 10 * acc + digitVal c) 0

/-- Parse a maximal nonempty run of decimal digits from the front of `s`. -/
def parseNatFrom (s : List Char) : Option (Nat × List Char) :=
  let ds := s.takeWhile isDigitCh
  if ds.isEmpty then none else some (charsToNat ds, s.dropWhile isDigitCh)

/-- Parse the remainder of a JSON string after the opening quote:
the content up to the next `"` and the input after it. -/
def parseStrTail : List Char → Option (List Char × List Char)
  | [] => none
  | c :: rest =>
    if c = '"' then some ([], rest)
    else (parseStrTail rest).map (fun p => (c :: p.1, p.2))

mutual

/-- Model of the host primitive `JSON.parse`, restricted to the grammar
`stringify` emits (fuel-based recursive descent).  Returns the parsed
value and the unconsumed remainder. -/
def parseJ : Nat → List Char → Option (Json × List Char)
  | 0, _ => none
  | _ + 1, [] => none
  | f + 1, c :: rest =>
    if c = 'n' then
      match rest with
      | 'u' :: 'l' :: 'l' :: r => some (.null, r)
      | _ => none
    else if c = 't' then
      match rest with
      | 'r' :: 'u' :: 'e' :: r => some (.bool true, r)
      | _ => none
    else if c = 'f' then
      match rest with
      | 'a' :: 'l' :: 's' :: 'e' :: r => some (.bool false, r)
      | _ => none
    else if c = '"' then
      (parseStrTail rest).map (fun p => (.str p.1, p.2))
    else if c = '-' then
      match parseNatFrom rest with
      | some (n, r) => some (.num (-(n : Int)), r)
      | none => none
    else if isDigitCh c then
      match parseNatFrom (c :: rest) with
      | some (n, r) => some (.num (n : Int), r)
      | none => none
    else if c = '[' then
      match rest with
      | ']' :: r => some (.arr [], r)
      | _ =>
        match parseJ f rest with
        | some (v, r) =>
          match parseArrTail f r with
          | some (vs, r2) => some (.arr (v :: vs), r2)
          | none => none
        | none => none
    else if c = lbrace then
      match rest with
      | r0 :: r =>
        if r0 = rbrace then some (.obj [], r)
        else
          match parseMember f (r0 :: r) with
          | some (kv, r1) =>
            match parseObjTail f r1 with
            | some (kvs, r2) => some (.obj (kv :: kvs), r2)
            | none => none
          | none => none
      | [] => none
    else none

/-- Parse `(,elem)* ]` — the tail of a nonempty JSON array. -/
def parseArrTail : Nat → List Char → Option (List Json × List Char)
  | 0, _ => none
  | _ + 1, ']' :: r => some ([], r)
  | f + 1, ',' :: rest =>
    match parseJ f rest with
    | some (v, r) =>
      match parseArrTail f r with
      | some (vs, r2) => some (v :: vs, r2)
      | none => none
    | none => none
  | _ + 1, _ => none

/-- Parse one object member `"key":value`. -/
def parseMember : Nat → List Char → Option ((List Char × Json) × List Char)
  | 0, _ => none
  | f + 1, c :: rest =>
    if c = '"' then
      match parseStrTail rest with
      | some (k, r) =>
        match r with
        | ':' :: r2 =>
          match parseJ f r2 with
          | some (v, r3) => some ((k, v), r3)
          | none => none
        | _ => none
      | none => none
    else none
  | _ + 1, [] => none

/-- Parse `(,member)* \x7d` — the tail of a nonempty JSON object. -/
def parseObjTail : Nat → List Char → Option (List (List Char × Json) × List Char)
  | 0, _ => none
  | f + 1, c :: rest =>
    if c = rbrace then some ([], rest)
    else if c = ',' then
      match parseMember f rest with
      | some (kv, r) =>
        match parseObjTail f r with
        | some (kvs, r2) => some (kv :: kvs, r2)
        | none => none
      | none => none
    else none
  | _ + 1, [] => none

end

/-! ## Well-formed JSON values

`wfJ` carves out the values whose JSON text round-trips through the
codec: strings (and object keys) built from printable BMP characters
that `JSON.stringify` emits unescaped. -/

/-- A character that `JSON.stringify` emits as itself inside a string
literal: printable (≥ U+0020), below the surrogate range, and neither
the quote nor the backslash. -/
def goodChar (c : Char) : Bool :=
  decide (32 ≤ c.toNat) && decide (c.toNat < 55296) && !(c == '"') && !(c == '\\')

mutual

/-- Well-formedness of a `Json` value (see `goodChar`). -/
def wfJ : Json → Bool
  | .null => true
  | .bool _ => true
  | .num _ => true
  | .str s => s.all goodChar
  | .arr xs => wfL xs
  | .obj kvs => wfO kvs

/-- Well-formedness of a list of array elements. -/
def wfL : List Json → Bool
  | [] => true
  | x :: xs => wfJ x && wfL xs

/-- Well-formedness of a list of object members. -/
def wfO : List (List Char × Json) → Bool
  | [] => true
  | kv :: kvs => kv.1.all goodChar && wfJ kv.2 && wfO kvs

end

mutual

/-- Fuel needed by `parseJ` to parse the printed form of a value. -/
def fsize : Json → Nat
  | .null | .bool _ | .num _ | .str _ => 1
  | .arr [] => 1
  | .arr (x :: xs) => 1 + max (fsize x) (fsizeL xs)
  | .obj [] => 1
  | .obj (kv :: kvs) => 1 + max (1 + fsize kv.2) (fsizeO kvs)

/-- Fuel needed by `parseArrTail` for the remaining elements. -/
def fsizeL : List Json → Nat
  | [] => 1
  | x :: xs => 1 + max (fsize x) (fsizeL xs)

/-- Fuel needed by `parseObjTail` for the remaining members. -/
def fsizeO : List (List Char × Json) → Nat
  | [] => 1
  | kv :: kvs => 1 + max (1 + fsize kv.2) (fsizeO kvs)

end

/-- The first character of `s`, if any, is not a decimal digit. -/
def noDigitHead : List Char → Bool
  | [] => true
  | c :: _ => !(isDigitCh c)


/-! ## Byte-level primitives

Models of the host typed-array primitives the encoder uses:
`str.charCodeAt(i)` (for BMP characters), the little-endian byte layout
of `Uint16Array.buffer` and `Uint32Array.buffer`, and the inverse
pairing of bytes into 16-bit code units. -/

/-- `charCodeAt` over a whole JS string (BMP characters). -/
def charCodes (s : List Char) : List Nat := s.map Char.toNat

/-- The underlying `ArrayBuffer` of a `Uint16Array`: each element stored
as two bytes, little-endian (elements are stored mod 2^16). -/
def u16sToBytes (us : List Nat) : List Nat :=
  (us.map (fun u => [u % 256, u / 256 % 256])).flatten

/-- The underlying `ArrayBuffer` of `new Uint32Array([n])`: four bytes,
little-endian (the element is stored mod 2^32). -/
def u32Bytes (n : Nat) : List Nat :=
  [n % 256, n / 256 % 256, n / 65536 % 256, n / 16777216 % 256]

/-- Reassemble a byte buffer into 16-bit little-endian code units;
`none` when the byte count is odd. -/
def bytesToU16s : List Nat → Option (List Nat)
  | [] => some []
  | lo :: hi :: rest => (bytesToU16s rest).map (fun us => (lo + 256 * hi) :: us)
  | [_] => none

/-! ## JS values and typed arrays -/

/-- A JS value as passed to the encoder: either JSON-serializable
(modelled by `Json`) or one on which `JSON.stringify` throws
(a cyclic object graph). -/
inductive JsVal where
  | json (v : Json)
  | cyclic

/-- The nine typed-array element kinds recognised by
`PixpEncoder._isTypedArray` (source lines 201-215). -/
inductive TypedKind where
  | int8 | uint8 | uint8Clamped | int16 | uint16 | int32 | uint32 | float32 | float64
  deriving DecidableEq

/-- `BYTES_PER_ELEMENT` of each typed-array kind. -/
def bytesPerElementOf : TypedKind → Nat
  | .int8 | .uint8 | .uint8Clamped => 1
  | .int16 | .uint16 => 2
  | .int32 | .uint32 | .float32 => 4
  | .float64 => 8

/-- The record built by `PixpEncoder._getTypedArraySpec`. -/
structure TypedArraySpec where
  bytesPerElement : Nat
  dataType : List Char
  signed : Bool
  deriving DecidableEq

/-- Embedding of `PixpEncoder._getTypedArraySpec` (source lines 224-262):
`bytesPerElement` is `arr.BYTES_PER_ELEMENT`; `dataType` and `signed`
follow the instanceof chain branch by branch. -/
def getTypedArraySpec (k : TypedKind) : TypedArraySpec :=
  match k with
  | .int8 => ⟨bytesPerElementOf .int8, "int".data, false⟩
  | .uint8 => ⟨bytesPerElementOf .uint8, "int".data, true⟩
  | .uint8Clamped => ⟨bytesPerElementOf .uint8Clamped, "int".data, true⟩
  | .int16 => ⟨bytesPerElementOf .int16, "int".data, false⟩
  | .uint16 => ⟨bytesPerElementOf .uint16, "int".data, true⟩
  | .int32 => ⟨bytesPerElementOf .int32, "int".data, false⟩
  | .uint32 => ⟨bytesPerElementOf .uint32, "int".data, true⟩
  | .float32 => ⟨bytesPerElementOf .float32, "float".data, false⟩
  | .float64 => ⟨bytesPerElementOf .float64, "float".data, false⟩

/-- The `data` argument of `addBlock`: a typed array (kind plus the bytes
of its underlying `ArrayBuffer`), or any other JS value. -/
inductive JsData where
  | typed (k : TypedKind) (bytes : List Nat)
  | value (v : JsVal)

/-- Embedding of `PixpEncoder._isTypedArray` (source lines 201-215). -/
def isTypedArray : JsData → Bool
  | .typed _ _ => true
  | .value _ => false

/-- Model of the host primitive `JSON.stringify` at the JS-value level:
the JSON text, or `none` when serialization throws (cyclic reference). -/
def jsonStringify : JsVal → Option (List Char)
  | .json v => some (stringify v)
  | .cyclic => none

/-- Embedding of `PixpEncoder._toJsonString` (source lines 183-192):
`JSON.stringify` in a try/catch, `null` (= `none`) on failure. -/
def toJsonString (v : JsVal) : Option (List Char) := jsonStringify v

/-- Embedding of `PixpEncoder._stringToUnicodeBuffer` (source lines
165-174): `null` input (and the falsy empty string) yields `null`;
otherwise a `Uint16Array` of the string's `charCodeAt` values. -/
def stringToUnicodeBuffer : Option (List Char) → Option (List Nat)
  | none => none
  | some s => if s.isEmpty then none else some (charCodes s)

/-- Embedding of `PixpEncoder._objectToUnicodeBuffer` (source lines
152-157). -/
def objectToUnicodeBuffer (v : JsVal) : Option (List Nat) :=
  stringToUnicodeBuffer (toJsonString v)

/-! ## The encoder -/

/-- The mutable state of a `PixpEncoder` instance (source lines 33-38):
the two buffer lists hold the bytes of the `ArrayBuffer`s pushed by
`addBlock`. -/
structure EncoderState where
  sidecarBuffers : List (List Nat)
  dataBuffers : List (List Nat)
  studyMetadata : JsVal

/-- A fresh `new PixpEncoder()`: empty buffer lists, `_studyMetadata = \x7b\x7d`. -/
def initEncoder : EncoderState := ⟨[], [], .json (.obj [])⟩

/-- Embedding of `PixpEncoder.setStudyMetadata` (source lines 84-86). -/
def setStudyMetadata (s : EncoderState) (v : JsVal) : EncoderState :=
  { s with studyMetadata := v }

/-- A JS exception escaping a method. -/
inductive JsException where
  | typeError
  | rangeError
  deriving DecidableEq

/-- The JSON object key `"encodingMetadata"`. -/
def encKey : List Char := "encodingMetadata".data

/-- The JSON object key `"originalMetadata"`. -/
def omKey : List Char := "originalMetadata".data

/-- Shared tail of `PixpEncoder.addBlock` (source lines 70-80): set
`encoding.byteLength`, build the sidecar object, serialize it, and push
both buffers.  `_objectToUnicodeBuffer(sidecar)` returning `null` makes
the `.buffer` access on line 77 throw a `TypeError` before either `push`
runs, so on failure the state is returned unchanged. -/
def addBlockCore (s : EncoderState) (encodingNoLen : List (List Char × Json))
    (metadata : JsVal) (dataBuffer : List Nat) : EncoderState × Option JsException :=
  let encoding : Json := .obj (encodingNoLen ++ [("byteLength".data, .num (dataBuffer.length : Int))])
  let sidecar : JsVal :=
    match metadata with
    | .json m => .json (.obj [(encKey, encoding), (omKey, m)])
    | .cyclic => .cyclic
  match objectToUnicodeBuffer sidecar with
  | none => (s, some .typeError)
  | some u =>
    ({ s with sidecarBuffers := s.sidecarBuffers ++ [u16sToBytes u],
              dataBuffers := s.dataBuffers ++ [dataBuffer] }, none)

/-- Embedding of `PixpEncoder.addBlock` (source lines 47-81).
`encoding.originalType` is set first (line 49); the typed-array branch
(lines 55-61) takes `dataBuffer = data.buffer` and the classifier's
fields in order `bytesPerElement`, `dataType`, `signed`; the fallback
branch (lines 63-68) serializes the value (the `.buffer` access on the
`null` result of a failed serialization throws a `TypeError`). -/
def addBlock (s : EncoderState) (data : JsData) (metadata : JsVal)
    (originalType : Option (List Char)) : EncoderState × Option JsException :=
  let otJson : Json := match originalType with
    | none => .null
    | some t => .str t
  match data with
  | .typed k bytes =>
    let spec := getTypedArraySpec k
    addBlockCore s
      [("originalType".data, otJson),
       ("bytesPerElement".data, .num (spec.bytesPerElement : Int)),
       ("dataType".data, .str spec.dataType),
       ("signed".data, .bool spec.signed)]
      metadata bytes
  | .value v =>
    match objectToUnicodeBuffer v with
    | none => (s, some .typeError)
    | some u =>
      addBlockCore s
        [("originalType".data, otJson),
         ("bytesPerElement".data, .num 2),
         ("dataType".data, .str "json".data),
         ("signed".data, .bool false)]
        metadata (u16sToBytes u)

/-- Result of `PixpEncoder.blocksToBlob`. -/
inductive BuildResult where
  | consistencyMismatch
  | thrownTypeError
  | blob (bytes : List Nat)

/-- The `blockStarts` loop of `blocksToBlob` (source lines 96-107):
push the running position, then advance it by both buffer lengths
plus 4. -/
def blockStartsAux (pos : Nat) : List (List Nat × List Nat) → List Nat
  | [] => []
  | (sc, db) :: rest => pos :: blockStartsAux (pos + (sc.length + db.length) + 4) rest

/-- Embedding of `PixpEncoder.blocksToBlob` (source lines 89-145).
A sidecar/data count mismatch warns and returns `undefined`
(`consistencyMismatch`, lines 90-93).  If serializing the study sidecar
fails, `_objectToUnicodeBuffer` returns `null` and the `.buffer` access
on line 114 throws a `TypeError` (`thrownTypeError`) — the null-check on
lines 118-121 sits after that dereference and is unreachable.
Otherwise the blob is the concatenation of the pushed pieces
(lines 123-144). -/
def blocksToBlob (s : EncoderState) : BuildResult :=
  if s.sidecarBuffers.length ≠ s.dataBuffers.length then .consistencyMismatch
  else
    let blockStarts := blockStartsAux 0 (s.sidecarBuffers.zip s.dataBuffers)
    let studySidecar : JsVal :=
      match s.studyMetadata with
      | .json m => .json (.obj
          [("blockStarts".data, .arr (blockStarts.map (fun (n : Nat) => Json.num (n : Int)))),
           ("studyMetadata".data, m)])
      | .cyclic => .cyclic
    match objectToUnicodeBuffer studySidecar with
    | none => .thrownTypeError
    | some u =>
      let ssb := u16sToBytes u
      let blobArray := [u32Bytes ssb.length, ssb] ++
        ((s.sidecarBuffers.zip s.dataBuffers).map
          (fun p => [u32Bytes p.1.length, p.1, p.2])).flatten
      .blob blobArray.flatten

/-! ## The decoder fragment present in the source -/

/-- Embedding of the framing step of `PixpDecoder.blobToBlocks`
(source lines 281-284): `new DataView(inputBuffer, true)` passes `true`
as the *byteOffset* argument (`ToIndex(true) = 1`), so the view starts
at byte 1 (a `RangeError` if the buffer is empty); `view.getUint32(0)`
omits the littleEndian flag and therefore reads bytes `[1,5)` of the
blob big-endian (a `RangeError` if fewer than 4 bytes remain). -/
def blobToBlocksFirstStep (blob : List Nat) : Except JsException Nat :=
  if blob.length < 1 then .error .rangeError
  else
    match blob.drop 1 with
    | b0 :: b1 :: b2 :: b3 :: _ =>
      .ok (16777216 * b0 + 65536 * b1 + 256 * b2 + b3)
    | _ => .error .rangeError

/-! ## The completed decoder, modelled from the spec

The repository's `PixpDecoder.blobToBlocks` only demonstrates reading the
study sidecar (spec §9 records that completing steps 3-4 of §4.4 is a
required design obligation).  The definitions below model the full
decode path from the spec's words. -/

/-- Decode-side errors (spec §7). -/
inductive DecodeError where
  | malformedBlob
  | encodingMismatch
  deriving DecidableEq

/-- The interpreted payload of a decoded block: a numeric buffer is kept
as a zero-copy byte view (spec §5); a `"json"` block is the decoded
value. -/
inductive DecodedData where
  | numeric (bytes : List Nat)
  | value (v : Json)

/-- One decoded block (spec §4.4 step 3). -/
structure DecodedBlock where
  encodingMetadata : Json
  originalMetadata : Json
  originalType : Option (List Char)
  rawData : List Nat
  data : DecodedData

/-- Modelled from the spec: field lookup in a decoded JSON object
(first matching key). -/
def lookupKey (k : List Char) : List (List Char × Json) → Option Json
  | [] => none
  | kv :: rest => if kv.1 = k then some kv.2 else lookupKey k rest

/-- Modelled from the spec (§4.4 step 1, §6): read a little-endian
uint32 at byte offset `off`; `none` when fewer than 4 bytes are
available there. -/
def readU32le (blob : List Nat) (off : Nat) : Option Nat :=
  match blob.drop off with
  | b0 :: b1 :: b2 :: b3 :: _ => some (b0 + 256 * b1 + 65536 * b2 + 16777216 * b3)
  | _ => none

/-- Modelled from the spec (§4.1): the Unicode-JSON Codec decode
direction, absent from src: fails when the byte count is odd or the
UTF-16 text does not parse as JSON. -/
def codecDecode (bytes : List Nat) : Except DecodeError Json :=
  match bytesToU16s bytes with
  | none => .error .malformedBlob
  | some us =>
    match parseJ ((us.map Char.ofNat).length + 1) (us.map Char.ofNat) with
    | some (v, []) => .ok v
    | _ => .error .malformedBlob

/-- Modelled from the spec (§3): `blockStarts` entries are uint32 byte
offsets, so they must decode as non-negative JSON numbers. -/
def natsOfJsons : List Json → Option (List Nat)
  | [] => some []
  | .num n :: rest =>
    if n < 0 then none else (natsOfJsons rest).map (fun l => n.toNat :: l)
  | _ :: _ => none

/-- Modelled from the spec (§3): `originalType` in an encoding
descriptor is a string or null. -/
def originalTypeOf : Json → Option (Option (List Char))
  | .null => some none
  | .str t => some (some t)
  | _ => none

/-- Modelled from the spec (§4.4 step 3): decode one block at absolute
byte offset `absOff`: read the 4-byte sidecar length, decode the
sidecar, read exactly `byteLength` bytes of raw data (bounds-checked),
and interpret them according to `dataType` (an `EncodingMismatchError`
when `byteLength` is not a multiple of `bytesPerElement`). -/
def decodeOneBlock (blob : List Nat) (absOff : Nat) : Except DecodeError DecodedBlock :=
  match readU32le blob absOff with
  | none => .error .malformedBlob
  | some scLen =>
    if absOff + 4 + scLen ≤ blob.length then
      match codecDecode ((blob.drop (absOff + 4)).take scLen) with
      | .error e => .error e
      | .ok (.obj fields) =>
        match lookupKey encKey fields, lookupKey omKey fields with
        | some (.obj encFields), some om =>
          match lookupKey "dataType".data encFields,
                lookupKey "bytesPerElement".data encFields,
                lookupKey "byteLength".data encFields,
                lookupKey "originalType".data encFields with
          | some (.str dt), some (.num bpe), some (.num bl), some ot =>
            match originalTypeOf ot with
            | none => .error .malformedBlob
            | some oty =>
              if bl < 0 then .error .malformedBlob
              else if absOff + 4 + scLen + bl.toNat ≤ blob.length then
                let raw := (blob.drop (absOff + 4 + scLen)).take bl.toNat
                if dt = "json".data then
                  match codecDecode raw with
                  | .ok v => .ok ⟨.obj encFields, om, oty, raw, .value v⟩
                  | .error e => .error e
                else
                  if bpe ≤ 0 then .error .encodingMismatch
                  else if bl.toNat % bpe.toNat = 0 then
                    .ok ⟨.obj encFields, om, oty, raw, .numeric raw⟩
                  else .error .encodingMismatch
              else .error .malformedBlob
          | _, _, _, _ => .error .malformedBlob
        | _, _ => .error .malformedBlob
      | .ok _ => .error .malformedBlob
    else .error .malformedBlob

/-- Modelled from the spec (§4.4 steps 3-4): decode every block, in
`blockStarts` order, at offsets relative to `regionStart`; any failure
aborts the whole decode. -/
def decodeBlocksFrom (blob : List Nat) (regionStart : Nat) :
    List Nat → Except DecodeError (List DecodedBlock)
  | [] => .ok []
  | st :: rest =>
    match decodeOneBlock blob (regionStart + st) with
    | .error e => .error e
    | .ok b =>
      match decodeBlocksFrom blob regionStart rest with
      | .error e => .error e
      | .ok bs => .ok (b :: bs)

/-- Modelled from the spec (§4.4): the full decoder, absent from src
(the `PixpDecoder` stub stops after reading the study sidecar): read the
study-sidecar frame, decode `{blockStarts, studyMetadata}`, then decode
every block. -/
def decode (blob : List Nat) : Except DecodeError (Json × List DecodedBlock) :=
  match readU32le blob 0 with
  | none => .error .malformedBlob
  | some l0 =>
    if 4 + l0 ≤ blob.length then
      match codecDecode ((blob.drop 4).take l0) with
      | .ok (.obj fields) =>
        match lookupKey "blockStarts".data fields,
              lookupKey "studyMetadata".data fields with
        | some (.arr startsJ), some sm =>
          match natsOfJsons startsJ with
          | some starts =>
            match decodeBlocksFrom blob (4 + l0) starts with
            | .ok bs => .ok (sm, bs)
            | .error e => .error e
          | none => .error .malformedBlob
        | _, _ => .error .malformedBlob
      | _ => .error .malformedBlob
    else .error .malformedBlob

/-! ## Round-trip inputs

A caller-side description of one `addBlock` call with serializable
arguments: a typed array or a JSON-serializable value, JSON-serializable
block metadata, and an optional `originalType` string. -/

/-- Serializable block data. -/
inductive GoodData where
  | typed (k : TypedKind) (bytes : List Nat)
  | jsonVal (v : Json)

/-- The `data` argument passed to `addBlock` for a `GoodData`. -/
def GoodData.toJsData : GoodData → JsData
  | .typed k bytes => .typed k bytes
  | .jsonVal v => .value (.json v)

/-- One `addBlock` call's arguments. -/
structure BlockInput where
  data : GoodData
  metadata : Json
  originalType : Option (List Char)

/-- Well-formedness of an optional `originalType` string. -/
def wfOriginalType : Option (List Char) → Bool
  | none => true
  | some t => t.all goodChar

/-- Well-formedness of block data: typed-array bytes are bytes whose
count is a whole number of elements; a JSON value is well-formed. -/
def GoodData.wf : GoodData → Bool
  | .typed k bytes =>
    bytes.all (fun b => decide (b < 256)) &&
      decide (bytes.length % bytesPerElementOf k = 0)
  | .jsonVal v => wfJ v

/-- Well-formedness of one block input. -/
def wfInput (i : BlockInput) : Bool :=
  i.data.wf && wfJ i.metadata && wfOriginalType i.originalType

/-- The `originalType` field value of the encoding descriptor. -/
def otJsonOf : Option (List Char) → Json
  | none => .null
  | some t => .str t

/-- The raw-data buffer `addBlock` stores for a block input. -/
def dataBytesOf (i : BlockInput) : List Nat :=
  match i.data with
  | .typed _ bytes => bytes
  | .jsonVal v => u16sToBytes (charCodes (stringify v))

/-- The encoding-descriptor object `addBlock` builds for a block input. -/
def encObjOf (i : BlockInput) : Json :=
  match i.data with
  | .typed k _ =>
    .obj [("originalType".data, otJsonOf i.originalType),
          ("bytesPerElement".data, .num ((getTypedArraySpec k).bytesPerElement : Int)),
          ("dataType".data, .str (getTypedArraySpec k).dataType),
          ("signed".data, .bool (getTypedArraySpec k).signed),
          ("byteLength".data, .num ((dataBytesOf i).length : Int))]
  | .jsonVal _ =>
    .obj [("originalType".data, otJsonOf i.originalType),
          ("bytesPerElement".data, .num 2),
          ("dataType".data, .str "json".data),
          ("signed".data, .bool false),
          ("byteLength".data, .num ((dataBytesOf i).length : Int))]

/-- The block-sidecar object `addBlock` serializes for a block input. -/
def sidecarJsonOf (i : BlockInput) : Json :=
  .obj [(encKey, encObjOf i), (omKey, i.metadata)]

/-- The sidecar buffer `addBlock` stores for a block input. -/
def sidecarBytesOf (i : BlockInput) : List Nat :=
  u16sToBytes (charCodes (stringify (sidecarJsonOf i)))

/-- The framed bytes of one block inside the blob (spec §3). -/
def chunkOfInput (i : BlockInput) : List Nat :=
  u32Bytes (sidecarBytesOf i).length ++ sidecarBytesOf i ++ dataBytesOf i

/-- A sequence of `addBlock` calls. -/
def addBlocks (s : EncoderState) : List BlockInput → EncoderState
  | [] => s
  | i :: rest => addBlocks (addBlock s i.data.toJsData (.json i.metadata) i.originalType).1 rest

/-- The study-sidecar object `blocksToBlob` serializes for these inputs. -/
def studySidecarJsonOf (inputs : List BlockInput) (m : Json) : Json :=
  .obj [("blockStarts".data,
          .arr ((blockStartsAux 0 (inputs.map (fun i => (sidecarBytesOf i, dataBytesOf i)))).map
            (fun (n : Nat) => Json.num (n : Int)))),
        ("studyMetadata".data, m)]

/-- The block decode of one input the spec decoder must reproduce. -/
def expectedBlock (i : BlockInput) : DecodedBlock :=
  { encodingMetadata := encObjOf i
    originalMetadata := i.metadata
    originalType := i.originalType
    rawData := dataBytesOf i
    data := match i.data with
      | .typed _ _ => .numeric (dataBytesOf i)
      | .jsonVal v => .value v }

/-! ## Decimal printing round-trips -/

theorem digitVal_digitChar {d : Nat} (h : d < 10) : digitVal (digitChar d) = d := by
  interval_cases d <;> decide

theorem isDigitCh_digitChar (d : Nat) : isDigitCh (digitChar d) = true := by
  unfold digitChar
  split <;> decide

theorem charsToNat_snoc (a : List Char) (c : Char) :
    charsToNat (a ++ [c]) = 10 * charsToNat a + digitVal c := by
  simp [charsToNat, List.foldl_append]

theorem charsToNat_natToCharsAux : ∀ f n, n ≤ f → charsToNat (natToCharsAux f n) = n
  | 0, n, h => by
    have : n = 0 := Nat.le_zero.mp h
    simp [natToCharsAux, charsToNat, this]
  | f + 1, n, h => by
    by_cases h0 : n = 0
    · simp [natToCharsAux, charsToNat, h0]
    · rw [natToCharsAux, if_neg h0, charsToNat_snoc,
        charsToNat_natToCharsAux f (n / 10) (by omega),
        digitVal_digitChar (Nat.mod_lt n (by omega))]
      omega

theorem natToCharsAux_digits : ∀ f n, ∀ c ∈ natToCharsAux f n, isDigitCh c = true
  | 0, n => by simp [natToCharsAux]
  | f + 1, n => by
    by_cases h0 : n = 0
    · simp [natToCharsAux, h0]
    · rw [natToCharsAux, if_neg h0]
      intro c hc
      rcases List.mem_append.mp hc with h | h
      · exact natToCharsAux_digits f (n / 10) c h
      · rcases List.mem_singleton.mp h with rfl
        exact isDigitCh_digitChar _

theorem natToChars_digits (n : Nat) : ∀ c ∈ natToChars n, isDigitCh c = true := by
  unfold natToChars
  split
  · intro c hc; rcases List.mem_singleton.mp hc with rfl; decide
  · exact natToCharsAux_digits n n

theorem charsToNat_natToChars (n : Nat) : charsToNat (natToChars n) = n := by
  unfold natToChars
  split
  · rename_i h; subst h; decide
  · exact charsToNat_natToCharsAux n n le_rfl

theorem takeWhile_append_digits : ∀ (a b : List Char),
    (∀ c ∈ a, isDigitCh c = true) → noDigitHead b = true →
    (a ++ b).takeWhile isDigitCh = a ∧ (a ++ b).dropWhile isDigitCh = b
  | [], b, _, hb => by
    cases b with
    | nil => simp
    | cons c cs =>
      have hc : isDigitCh c = false := by
        simpa [noDigitHead] using hb
      simp [List.takeWhile_cons, List.dropWhile_cons, hc]
  | a0 :: a, b, ha, hb => by
    have h0 : isDigitCh a0 = true := ha a0 (by simp)
    have ih := takeWhile_append_digits a b (fun c hc => ha c (by simp [hc])) hb
    simp [List.takeWhile_cons, List.dropWhile_cons, h0, ih.1, ih.2]

theorem natToChars_ne_nil (n : Nat) : natToChars n ≠ [] := by
  unfold natToChars
  split
  · simp
  · rename_i h
    have h1 : 0 < n := Nat.pos_of_ne_zero h
    match hn : n, h1 with
    | m + 1, _ =>
      rw [natToCharsAux, if_neg (by omega)]
      simp

theorem natToChars_head (n : Nat) :
    ∃ c cs, natToChars n = c :: cs ∧ isDigitCh c = true := by
  cases h : natToChars n with
  | nil => exact absurd h (natToChars_ne_nil n)
  | cons c cs =>
    refine ⟨c, cs, rfl, ?_⟩
    exact natToChars_digits n c (by rw [h]; simp)

theorem parseNatFrom_natToChars (n : Nat) (rest : List Char)
    (hrest : noDigitHead rest = true) :
    parseNatFrom (natToChars n ++ rest) = some (n, rest) := by
  have h := takeWhile_append_digits (natToChars n) rest (natToChars_digits n) hrest
  rw [parseNatFrom]
  simp only [h.1, h.2]
  rw [if_neg (by simp [List.isEmpty_iff, natToChars_ne_nil n]), charsToNat_natToChars]

theorem goodChar_spec {c : Char} (h : goodChar c = true) :
    32 ≤ c.toNat ∧ c.toNat < 55296 ∧ c ≠ '"' ∧ c ≠ '\\' := by
  simp only [goodChar, Bool.and_eq_true, decide_eq_true_eq, Bool.not_eq_true',
    beq_eq_false_iff_ne, ne_eq] at h
  exact ⟨h.1.1.1, h.1.1.2, h.1.2, h.2⟩

theorem parseStrTail_append : ∀ (s rest : List Char),
    (∀ c ∈ s, goodChar c = true) →
    parseStrTail (s ++ '"' :: rest) = some (s, rest)
  | [], rest, _ => by simp [parseStrTail]
  | c :: s, rest, h => by
    have hc : c ≠ '"' := (goodChar_spec (h c (by simp))).2.2.1
    rw [List.cons_append, parseStrTail, if_neg hc,
      parseStrTail_append s rest (fun x hx => h x (by simp [hx]))]
    rfl

theorem ne_of_digit_of_not_digit (c t : Char) (h : isDigitCh c = true)
    (ht : isDigitCh t = false) : c ≠ t := by
  intro h'
  rw [h'] at h
  rw [h] at ht
  cases ht

theorem stringify_head (v : Json) : ∃ c cs, stringify v = c :: cs ∧ c ≠ ']' := by
  cases v with
  | null => exact ⟨'n', _, rfl, by decide⟩
  | bool b =>
    cases b with
    | false => exact ⟨'f', _, rfl, by decide⟩
    | true => exact ⟨'t', _, rfl, by decide⟩
  | num n =>
    show ∃ c cs, intToChars n = c :: cs ∧ c ≠ ']'
    rw [intToChars]
    split
    · exact ⟨'-', _, rfl, by decide⟩
    · obtain ⟨c, cs, hc, hd⟩ := natToChars_head n.toNat
      exact ⟨c, cs, hc, ne_of_digit_of_not_digit c ']' hd (by decide)⟩
  | str s => exact ⟨'"', _, rfl, by decide⟩
  | arr xs =>
    cases xs with
    | nil => exact ⟨'[', _, rfl, by decide⟩
    | cons x xs => exact ⟨'[', _, rfl, by decide⟩
  | obj kvs =>
    cases kvs with
    | nil => exact ⟨lbrace, _, rfl, by decide⟩
    | cons kv kvs => exact ⟨lbrace, _, rfl, by decide⟩

theorem noDigitHead_arrTail (xs : List Json) (r : List Char) :
    noDigitHead (stringifyArrTail xs ++ ']' :: r) = true := by
  cases xs with
  | nil => simp [stringifyArrTail, noDigitHead]; decide
  | cons x xs => simp [stringifyArrTail, noDigitHead]; decide

theorem noDigitHead_objTail (kvs : List (List Char × Json)) (r : List Char) :
    noDigitHead (stringifyObjTail kvs ++ rbrace :: r) = true := by
  cases kvs with
  | nil => simp [stringifyObjTail, noDigitHead]; decide
  | cons kv kvs => simp [stringifyObjTail, noDigitHead]; decide

/-! ## The parser inverts the printer -/

mutual

theorem parseJ_stringify : ∀ (v : Json) (f : Nat) (rest : List Char),
    wfJ v = true → fsize v ≤ f → noDigitHead rest = true →
    parseJ f (stringify v ++ rest) = some (v, rest)
  | .null, f, rest, _, hf, _ => by
    cases f with
    | zero => simp only [fsize] at hf; omega
    | succ f => simp [stringify, litNull, parseJ]
  | .bool true, f, rest, _, hf, _ => by
    cases f with
    | zero => simp only [fsize] at hf; omega
    | succ f => simp [stringify, litTrue, parseJ]
  | .bool false, f, rest, _, hf, _ => by
    cases f with
    | zero => simp only [fsize] at hf; omega
    | succ f => simp [stringify, litFalse, parseJ]
  | .num n, f, rest, _, hf, hrest => by
    cases f with
    | zero => simp only [fsize] at hf; omega
    | succ f =>
      show parseJ (f + 1) (intToChars n ++ rest) = some (.num n, rest)
      by_cases hn : n < 0
      · rw [intToChars, if_pos hn]
        have hp := parseNatFrom_natToChars n.natAbs rest hrest
        have he : -(n.natAbs : Int) = n := by omega
        simp only [List.cons_append]
        simp only [parseJ]
        simp [hp]
        rw [Int.abs_eq_natAbs]
        omega
      · rw [intToChars, if_neg hn]
        obtain ⟨c, cs, hc, hd⟩ := natToChars_head n.toNat
        have hp := parseNatFrom_natToChars n.toNat rest hrest
        rw [hc, List.cons_append] at hp
        have he : (n.toNat : Int) = n := by omega
        rw [hc]
        simp only [List.cons_append]
        simp only [parseJ]
        rw [if_neg (ne_of_digit_of_not_digit c 'n' hd (by decide)),
          if_neg (ne_of_digit_of_not_digit c 't' hd (by decide)),
          if_neg (ne_of_digit_of_not_digit c 'f' hd (by decide)),
          if_neg (ne_of_digit_of_not_digit c '"' hd (by decide)),
          if_neg (ne_of_digit_of_not_digit c '-' hd (by decide)),
          if_pos hd]
        simp [hp]
        omega
  | .str s, f, rest, hwf, hf, _ => by
    cases f with
    | zero => simp only [fsize] at hf; omega
    | succ f =>
      have hs : ∀ c ∈ s, goodChar c = true := by
        simpa [wfJ, List.all_eq_true] using hwf
      have hst := parseStrTail_append s rest hs
      show parseJ (f + 1) (('"' :: (s ++ ['"'])) ++ rest) = some (.str s, rest)
      simp only [List.cons_append, List.append_assoc, List.singleton_append,
        List.nil_append]
      simp only [parseJ]
      simp [hst]
  | .arr [], f, rest, _, hf, _ => by
    cases f with
    | zero => simp only [fsize] at hf; omega
    | succ f =>
      simp [stringify, parseJ]
      intro hc
      exact absurd hc (by decide)
  | .arr (x :: xs), f, rest, hwf, hf, hrest => by
    cases f with
    | zero => simp only [fsize] at hf; omega
    | succ f =>
      have hw : wfJ x = true ∧ wfL xs = true := by
        simpa [wfJ, wfL, Bool.and_eq_true] using hwf
      have hfx : fsize x ≤ f ∧ fsizeL xs ≤ f := by
        simp only [fsize] at hf; omega
      have hx := parseJ_stringify x f (stringifyArrTail xs ++ ']' :: rest)
        hw.1 hfx.1 (noDigitHead_arrTail xs rest)
      have ht := parseArrTail_stringify xs f rest hw.2 hfx.2 hrest
      obtain ⟨c, cs, hcx, hne⟩ := stringify_head x
      rw [hcx, List.cons_append] at hx
      show parseJ (f + 1)
        (('[' :: ((stringify x ++ stringifyArrTail xs) ++ [']'])) ++ rest) =
        some (.arr (x :: xs), rest)
      rw [hcx]
      simp only [List.cons_append, List.append_assoc, List.singleton_append,
        List.nil_append]
      simp only [parseJ]
      rw [if_neg (by decide), if_neg (by decide), if_neg (by decide),
        if_neg (by decide), if_neg (by decide), if_neg (by decide),
        if_pos (by trivial)]
      split
      · rename_i r heq
        rw [List.cons.injEq] at heq
        exact absurd heq.1 hne
      · simp [hx, ht]
  | .obj [], f, rest, _, hf, _ => by
    cases f with
    | zero => simp only [fsize] at hf; omega
    | succ f =>
      show parseJ (f + 1) ([lbrace, rbrace] ++ rest) = some (.obj [], rest)
      simp only [List.cons_append, List.nil_append]
      simp only [parseJ]
      rw [if_neg (by decide), if_neg (by decide), if_neg (by decide),
        if_neg (by decide), if_neg (by decide), if_neg (by decide),
        if_neg (by decide), if_pos (by trivial)]
      simp
  | .obj (kv :: kvs), f, rest, hwf, hf, hrest => by
    cases f with
    | zero => simp only [fsize] at hf; omega
    | succ f =>
      obtain ⟨k, v⟩ := kv
      have hw : ((k.all goodChar && wfJ v) = true) ∧ wfO kvs = true := by
        have h2 : (k.all goodChar && wfJ v && wfO kvs) = true := by
          simpa [wfJ, wfO] using hwf
        rw [Bool.and_eq_true] at h2
        exact h2
      have hfx : 1 + fsize v ≤ f ∧ fsizeO kvs ≤ f := by
        simp only [fsize] at hf; omega
      have hm := parseMember_stringify (k, v) f
        (stringifyObjTail kvs ++ rbrace :: rest) hw.1 hfx.1
        (noDigitHead_objTail kvs rest)
      have ht := parseObjTail_stringify kvs f rest hw.2 hfx.2 hrest
      simp only [stringifyMember, List.cons_append, List.append_assoc] at hm
      show parseJ (f + 1)
        ((lbrace :: ((stringifyMember (k, v) ++ stringifyObjTail kvs) ++ [rbrace])) ++ rest) =
        some (.obj ((k, v) :: kvs), rest)
      simp only [stringifyMember, List.cons_append, List.append_assoc,
        List.singleton_append, List.nil_append]
      simp only [parseJ]
      rw [if_neg (by decide), if_neg (by decide), if_neg (by decide),
        if_neg (by decide), if_neg (by decide), if_neg (by decide),
        if_neg (by decide), if_pos (by trivial)]
      rw [if_neg (by decide)]
      simp [hm, ht]

theorem parseArrTail_stringify : ∀ (xs : List Json) (f : Nat) (rest : List Char),
    wfL xs = true → fsizeL xs ≤ f → noDigitHead rest = true →
    parseArrTail f (stringifyArrTail xs ++ ']' :: rest) = some (xs, rest)
  | [], f, rest, _, hf, _ => by
    cases f with
    | zero => simp only [fsizeL] at hf; omega
    | succ f => simp [stringifyArrTail, parseArrTail]
  | x :: xs, f, rest, hwf, hf, hrest => by
    cases f with
    | zero => simp only [fsizeL] at hf; omega
    | succ f =>
      have hw : wfJ x = true ∧ wfL xs = true := by
        simpa [wfL, Bool.and_eq_true] using hwf
      have hfx : fsize x ≤ f ∧ fsizeL xs ≤ f := by
        simp only [fsizeL] at hf; omega
      have hx := parseJ_stringify x f (stringifyArrTail xs ++ ']' :: rest)
        hw.1 hfx.1 (noDigitHead_arrTail xs rest)
      have ht := parseArrTail_stringify xs f rest hw.2 hfx.2 hrest
      show parseArrTail (f + 1)
        ((',' :: (stringify x ++ stringifyArrTail xs)) ++ ']' :: rest) =
        some (x :: xs, rest)
      simp only [List.cons_append, List.append_assoc]
      simp only [parseArrTail]
      simp [hx, ht]

theorem parseMember_stringify : ∀ (kv : List Char × Json) (f : Nat) (rest : List Char),
    (kv.1.all goodChar && wfJ kv.2) = true → 1 + fsize kv.2 ≤ f →
    noDigitHead rest = true →
    parseMember f (stringifyMember kv ++ rest) = some (kv, rest)
  | (k, v), f, rest, hwf, hf, hrest => by
    cases f with
    | zero => exact absurd hf (by omega)
    | succ f =>
      rw [Bool.and_eq_true] at hwf
      have hf2 : 1 + fsize v ≤ f + 1 := hf
      have hk : ∀ c ∈ k, goodChar c = true := by
        simpa [List.all_eq_true] using hwf.1
      have hst := parseStrTail_append k (':' :: (stringify v ++ rest)) hk
      have hv := parseJ_stringify v f rest hwf.2 (by omega) hrest
      clear hf
      show parseMember (f + 1)
        (('"' :: (k ++ '"' :: ':' :: stringify v)) ++ rest) = some ((k, v), rest)
      simp only [List.cons_append, List.append_assoc]
      simp only [parseMember]
      simp [hst, hv]

theorem parseObjTail_stringify : ∀ (kvs : List (List Char × Json)) (f : Nat) (rest : List Char),
    wfO kvs = true → fsizeO kvs ≤ f → noDigitHead rest = true →
    parseObjTail f (stringifyObjTail kvs ++ rbrace :: rest) = some (kvs, rest)
  | [], f, rest, _, hf, _ => by
    cases f with
    | zero => simp only [fsizeO] at hf; omega
    | succ f => simp [stringifyObjTail, parseObjTail]
  | kv :: kvs, f, rest, hwf, hf, hrest => by
    cases f with
    | zero => simp only [fsizeO] at hf; omega
    | succ f =>
      have hw : ((kv.1.all goodChar && wfJ kv.2) = true) ∧ wfO kvs = true := by
        have h2 : (kv.1.all goodChar && wfJ kv.2 && wfO kvs) = true := by
          simpa [wfO] using hwf
        rw [Bool.and_eq_true] at h2
        exact h2
      have hfx : 1 + fsize kv.2 ≤ f ∧ fsizeO kvs ≤ f := by
        simp only [fsizeO] at hf; omega
      have hm := parseMember_stringify kv f (stringifyObjTail kvs ++ rbrace :: rest)
        hw.1 hfx.1 (noDigitHead_objTail kvs rest)
      have ht := parseObjTail_stringify kvs f rest hw.2 hfx.2 hrest
      show parseObjTail (f + 1)
        ((',' :: (stringifyMember kv ++ stringifyObjTail kvs)) ++ rbrace :: rest) =
        some (kv :: kvs, rest)
      simp only [List.cons_append, List.append_assoc]
      simp only [parseObjTail]
      rw [if_neg (by decide), if_pos (by trivial)]
      simp only [List.append_assoc] at hm
      simp [hm, ht]

end

/-! ## Fuel bounds and character ranges for printed JSON -/

mutual

theorem fsize_le : ∀ (v : Json), fsize v ≤ (stringify v).length + 1
  | .null => by simp [stringify, fsize]
  | .bool true => by simp [stringify, fsize]
  | .bool false => by simp [stringify, fsize]
  | .num n => by simp [fsize]
  | .str s => by simp [fsize]
  | .arr [] => by simp [stringify, fsize]
  | .arr (x :: xs) => by
    have h1 := fsize_le x
    have h2 := fsizeL_le xs
    simp only [stringify, fsize, List.length_cons, List.length_append,
      List.length_singleton]
    omega
  | .obj [] => by simp [stringify, fsize]
  | .obj (kv :: kvs) => by
    obtain ⟨k, v⟩ := kv
    have h1 := fsize_le v
    have h2 := fsizeO_le kvs
    simp only [stringify, stringifyMember, fsize, List.length_cons,
      List.length_append, List.length_singleton]
    omega

theorem fsizeL_le : ∀ (xs : List Json), fsizeL xs ≤ (stringifyArrTail xs).length + 2
  | [] => by simp [stringifyArrTail, fsizeL]
  | x :: xs => by
    have h1 := fsize_le x
    have h2 := fsizeL_le xs
    simp only [stringifyArrTail, fsizeL, List.length_cons, List.length_append]
    omega

theorem fsizeO_le : ∀ (kvs : List (List Char × Json)),
    fsizeO kvs ≤ (stringifyObjTail kvs).length + 2
  | [] => by simp [stringifyObjTail, fsizeO]
  | kv :: kvs => by
    obtain ⟨k, v⟩ := kv
    have h1 := fsize_le v
    have h2 := fsizeO_le kvs
    simp only [stringifyObjTail, stringifyMember, fsizeO, List.length_cons,
      List.length_append]
    omega

end

theorem isDigitCh_lt {c : Char} (h : isDigitCh c = true) : c.toNat < 55296 := by
  simp only [isDigitCh, Bool.and_eq_true, decide_eq_true_eq] at h
  omega

theorem intToChars_lt (n : Int) : ∀ c ∈ intToChars n, c.toNat < 55296 := by
  intro c hc
  rw [intToChars] at hc
  split at hc
  · rcases List.mem_cons.mp hc with rfl | hc
    · decide
    · exact isDigitCh_lt (natToChars_digits _ c hc)
  · exact isDigitCh_lt (natToChars_digits _ c hc)

mutual

theorem stringify_lt : ∀ (v : Json), wfJ v = true →
    ∀ c ∈ stringify v, c.toNat < 55296
  | .null, _ => by intro c hc; fin_cases hc <;> decide
  | .bool true, _ => by intro c hc; fin_cases hc <;> decide
  | .bool false, _ => by intro c hc; fin_cases hc <;> decide
  | .num n, _ => by exact intToChars_lt n
  | .str st, hwf => by
    intro c hc
    have hs : ∀ x ∈ st, goodChar x = true := by
      simpa [wfJ, List.all_eq_true] using hwf
    rcases List.mem_cons.mp hc with rfl | hc
    · decide
    · rcases List.mem_append.mp hc with h | h
      · exact (goodChar_spec (hs c h)).2.1
      · rcases List.mem_singleton.mp h with rfl; decide
  | .arr [], _ => by intro c hc; fin_cases hc <;> decide
  | .arr (x :: xs), hwf => by
    intro c hc
    have hw : wfJ x = true ∧ wfL xs = true := by
      simpa [wfJ, wfL, Bool.and_eq_true] using hwf
    rcases List.mem_cons.mp hc with rfl | hc
    · decide
    · rcases List.mem_append.mp hc with h | h
      · rcases List.mem_append.mp h with h2 | h2
        · exact stringify_lt x hw.1 c h2
        · exact stringifyArrTail_lt xs hw.2 c h2
      · rcases List.mem_singleton.mp h with rfl; decide
  | .obj [], _ => by intro c hc; fin_cases hc <;> decide
  | .obj (kv :: kvs), hwf => by
    intro c hc
    have hw : ((kv.1.all goodChar && wfJ kv.2) = true) ∧ wfO kvs = true := by
      have h2 : (kv.1.all goodChar && wfJ kv.2 && wfO kvs) = true := by
        simpa [wfJ, wfO] using hwf
      rw [Bool.and_eq_true] at h2
      exact h2
    rcases List.mem_cons.mp hc with rfl | hc
    · decide
    · rcases List.mem_append.mp hc with h | h
      · rcases List.mem_append.mp h with h2 | h2
        · exact stringifyMember_lt kv hw.1 c h2
        · exact stringifyObjTail_lt kvs hw.2 c h2
      · rcases List.mem_singleton.mp h with rfl; decide

theorem stringifyArrTail_lt : ∀ (xs : List Json), wfL xs = true →
    ∀ c ∈ stringifyArrTail xs, c.toNat < 55296
  | [], _ => by intro c hc; cases hc
  | x :: xs, hwf => by
    intro c hc
    have hw : wfJ x = true ∧ wfL xs = true := by
      simpa [wfL, Bool.and_eq_true] using hwf
    rcases List.mem_cons.mp hc with rfl | hc
    · decide
    · rcases List.mem_append.mp hc with h | h
      · exact stringify_lt x hw.1 c h
      · exact stringifyArrTail_lt xs hw.2 c h

theorem stringifyMember_lt : ∀ (kv : List Char × Json),
    (kv.1.all goodChar && wfJ kv.2) = true →
    ∀ c ∈ stringifyMember kv, c.toNat < 55296
  | (k, v), hwf => by
    intro c hc
    rw [Bool.and_eq_true] at hwf
    have hk : ∀ x ∈ k, goodChar x = true := by
      simpa [List.all_eq_true] using hwf.1
    rcases List.mem_cons.mp hc with rfl | hc
    · decide
    · rcases List.mem_append.mp hc with h | h
      · exact (goodChar_spec (hk c h)).2.1
      · rcases List.mem_cons.mp h with rfl | h
        · decide
        · rcases List.mem_cons.mp h with rfl | h
          · decide
          · exact stringify_lt v hwf.2 c h

theorem stringifyObjTail_lt : ∀ (kvs : List (List Char × Json)), wfO kvs = true →
    ∀ c ∈ stringifyObjTail kvs, c.toNat < 55296
  | [], _ => by intro c hc; cases hc
  | kv :: kvs, hwf => by
    intro c hc
    have hw : ((kv.1.all goodChar && wfJ kv.2) = true) ∧ wfO kvs = true := by
      have h2 : (kv.1.all goodChar && wfJ kv.2 && wfO kvs) = true := by
        simpa [wfO] using hwf
      rw [Bool.and_eq_true] at h2
      exact h2
    rcases List.mem_cons.mp hc with rfl | hc
    · decide
    · rcases List.mem_append.mp hc with h | h
      · exact stringifyMember_lt kv hw.1 c h
      · exact stringifyObjTail_lt kvs hw.2 c h

end

/-! ## Byte-level round trips -/

theorem u16sToBytes_cons (u : Nat) (us : List Nat) :
    u16sToBytes (u :: us) = u % 256 :: u / 256 % 256 :: u16sToBytes us := by
  simp [u16sToBytes]

theorem length_u16sToBytes (us : List Nat) :
    (u16sToBytes us).length = 2 * us.length := by
  induction us with
  | nil => rfl
  | cons u us ih => rw [u16sToBytes_cons]; simp [ih]; omega

theorem bytesToU16s_u16sToBytes : ∀ (us : List Nat), (∀ u ∈ us, u < 65536) →
    bytesToU16s (u16sToBytes us) = some us
  | [], _ => rfl
  | u :: us, h => by
    rw [u16sToBytes_cons, bytesToU16s,
      bytesToU16s_u16sToBytes us (fun x hx => h x (by simp [hx]))]
    have hu : u % 256 + 256 * (u / 256 % 256) = u := by
      have := h u (by simp)
      omega
    simp [hu]

theorem map_ofNat_charCodes (s : List Char) :
    (charCodes s).map Char.ofNat = s := by
  simp only [charCodes, List.map_map]
  have : Char.ofNat ∘ Char.toNat = id := by
    funext c
    simp [Char.ofNat_toNat]
  rw [this, List.map_id]

theorem codecDecode_encode (v : Json) (h : wfJ v = true) :
    codecDecode (u16sToBytes (charCodes (stringify v))) = .ok v := by
  have h1 : ∀ u ∈ charCodes (stringify v), u < 65536 := by
    intro u hu
    rcases List.mem_map.mp hu with ⟨c, hc, rfl⟩
    have := stringify_lt v h c hc
    omega
  rw [codecDecode, bytesToU16s_u16sToBytes _ h1]
  simp only [map_ofNat_charCodes]
  have h2 := parseJ_stringify v ((stringify v).length + 1) [] h
    (by have := fsize_le v; omega) (by rfl)
  rw [List.append_nil] at h2
  rw [h2]

/-! ## Encoder-side characterization -/

theorem stringify_isEmpty_false (v : Json) : (stringify v).isEmpty = false := by
  obtain ⟨c, cs, hc, _⟩ := stringify_head v
  rw [hc]
  rfl

theorem objectToUnicodeBuffer_json (v : Json) :
    objectToUnicodeBuffer (.json v) = some (charCodes (stringify v)) := by
  rw [objectToUnicodeBuffer, toJsonString, jsonStringify, stringToUnicodeBuffer,
    if_neg (by rw [stringify_isEmpty_false]; exact fun h => Bool.false_ne_true h)]

theorem addBlock_good (s : EncoderState) (i : BlockInput) :
    addBlock s i.data.toJsData (.json i.metadata) i.originalType =
      ({ s with sidecarBuffers := s.sidecarBuffers ++ [sidecarBytesOf i],
                dataBuffers := s.dataBuffers ++ [dataBytesOf i] }, none) := by
  rcases i with ⟨d, m, ot⟩
  cases d with
  | typed k bytes =>
    rw [show (BlockInput.mk (.typed k bytes) m ot).data.toJsData = .typed k bytes from rfl]
    rw [addBlock.eq_def]
    simp only []
    rw [addBlockCore, objectToUnicodeBuffer_json]
    cases ot <;>
      simp [sidecarBytesOf, sidecarJsonOf, encObjOf, dataBytesOf, otJsonOf]
  | jsonVal v =>
    rw [show (BlockInput.mk (.jsonVal v) m ot).data.toJsData = .value (.json v) from rfl]
    rw [addBlock.eq_def]
    simp only []
    rw [objectToUnicodeBuffer_json]
    simp only []
    rw [addBlockCore, objectToUnicodeBuffer_json]
    cases ot <;>
      simp [sidecarBytesOf, sidecarJsonOf, encObjOf, dataBytesOf, otJsonOf,
        length_u16sToBytes, charCodes]

theorem addBlocks_spec : ∀ (inputs : List BlockInput) (s : EncoderState),
    addBlocks s inputs =
      { s with sidecarBuffers := s.sidecarBuffers ++ inputs.map sidecarBytesOf,
               dataBuffers := s.dataBuffers ++ inputs.map dataBytesOf }
  | [], s => by simp [addBlocks]
  | i :: rest, s => by
    rw [addBlocks, addBlock_good, addBlocks_spec rest]
    simp

/-! ## Well-formedness of the constructed sidecars -/

theorem dataType_good (k : TypedKind) :
    (getTypedArraySpec k).dataType.all goodChar = true := by
  cases k <;> decide

theorem dataType_ne_json (k : TypedKind) :
    ¬ ((getTypedArraySpec k).dataType = "json".data) := by
  cases k <;> decide

theorem bytesPerElement_eq (k : TypedKind) :
    (getTypedArraySpec k).bytesPerElement = bytesPerElementOf k := by
  cases k <;> rfl

theorem bytesPerElement_pos (k : TypedKind) :
    0 < (getTypedArraySpec k).bytesPerElement := by
  cases k <;> decide

theorem wfInput_parts {i : BlockInput} (h : wfInput i = true) :
    i.data.wf = true ∧ wfJ i.metadata = true ∧ wfOriginalType i.originalType = true := by
  rw [wfInput, Bool.and_eq_true, Bool.and_eq_true] at h
  exact ⟨h.1.1, h.1.2, h.2⟩

theorem wfJ_otJsonOf {ot : Option (List Char)} (h : wfOriginalType ot = true) :
    wfJ (otJsonOf ot) = true := by
  cases ot with
  | none => rfl
  | some t => simpa [otJsonOf, wfJ, wfOriginalType] using h

theorem wfJ_encObjOf (i : BlockInput) (h : wfInput i = true) :
    wfJ (encObjOf i) = true := by
  obtain ⟨hd, hm, hot⟩ := wfInput_parts h
  have h1 := wfJ_otJsonOf hot
  rcases i with ⟨d, m, ot⟩
  cases d with
  | typed k bytes =>
    simp only [encObjOf, wfJ, wfO, h1, dataType_good k]
    decide
  | jsonVal v =>
    simp only [encObjOf, wfJ, wfO, h1]
    decide

theorem wfJ_sidecarJsonOf (i : BlockInput) (h : wfInput i = true) :
    wfJ (sidecarJsonOf i) = true := by
  obtain ⟨hd, hm, hot⟩ := wfInput_parts h
  simp only [sidecarJsonOf, wfJ, wfO, wfJ_encObjOf i h, hm]
  decide

theorem wfL_map_num (l : List Nat) :
    wfL (l.map (fun (n : Nat) => Json.num (n : Int))) = true := by
  induction l with
  | nil => rfl
  | cons n l ih => simp [wfL, wfJ, ih]

theorem wfJ_studySidecarJsonOf (inputs : List BlockInput) (m : Json)
    (hm : wfJ m = true) : wfJ (studySidecarJsonOf inputs m) = true := by
  simp only [studySidecarJsonOf, wfJ, wfO, wfL_map_num, hm]
  decide

/-! ## Reading back frames -/

theorem length_u32Bytes (n : Nat) : (u32Bytes n).length = 4 := rfl

theorem readU32le_at (P R : List Nat) (n : Nat) (hn : n < 4294967296) :
    readU32le (P ++ (u32Bytes n ++ R)) P.length = some n := by
  rw [readU32le, List.drop_left]
  show (match n % 256 :: (n / 256 % 256 :: (n / 65536 % 256 :: (n / 16777216 % 256 :: R))) with
    | b0 :: b1 :: b2 :: b3 :: _ => some (b0 + 256 * b1 + 65536 * b2 + 16777216 * b3)
    | _ => none) = some n
  have : n % 256 + 256 * (n / 256 % 256) + 65536 * (n / 65536 % 256) +
      16777216 * (n / 16777216 % 256) = n := by omega
  simp [this]

theorem extract_middle (P Q R : List Nat) :
    ((P ++ (Q ++ R)).drop P.length).take Q.length = Q := by
  rw [List.drop_left, List.take_left]

theorem natsOfJsons_map (l : List Nat) :
    natsOfJsons (l.map (fun (n : Nat) => Json.num (n : Int))) = some l := by
  induction l with
  | nil => rfl
  | cons n l ih =>
    simp only [List.map_cons, natsOfJsons, ih]
    rw [if_neg (by omega)]
    simp

theorem lookupKey_cons_self (k : List Char) (v : Json)
    (rest : List (List Char × Json)) : lookupKey k ((k, v) :: rest) = some v := by
  simp [lookupKey]

theorem lookupKey_cons_ne (k k2 : List Char) (v : Json)
    (rest : List (List Char × Json)) (h : ¬ (k2 = k)) :
    lookupKey k ((k2, v) :: rest) = lookupKey k rest := by
  simp [lookupKey, h]

theorem decodeOneBlock_chunk (P rest2 : List Nat) (i : BlockInput)
    (hwf : wfInput i = true)
    (hsc : (sidecarBytesOf i).length < 4294967296) :
    decodeOneBlock (P ++ (chunkOfInput i ++ rest2)) P.length = .ok (expectedBlock i) := by
  obtain ⟨hd, hm, hot⟩ := wfInput_parts hwf
  have hchunk : chunkOfInput i ++ rest2 =
      u32Bytes (sidecarBytesOf i).length ++
        (sidecarBytesOf i ++ (dataBytesOf i ++ rest2)) := by
    simp [chunkOfInput, List.append_assoc]
  rw [hchunk]
  have hlen : (P ++ (u32Bytes (sidecarBytesOf i).length ++
      (sidecarBytesOf i ++ (dataBytesOf i ++ rest2)))).length =
      P.length + 4 + (sidecarBytesOf i).length + (dataBytesOf i).length +
        rest2.length := by
    simp [length_u32Bytes]
    omega
  have h1 := readU32le_at P
    (sidecarBytesOf i ++ (dataBytesOf i ++ rest2)) (sidecarBytesOf i).length hsc
  have h3 : ((P ++ (u32Bytes (sidecarBytesOf i).length ++
      (sidecarBytesOf i ++ (dataBytesOf i ++ rest2)))).drop (P.length + 4)).take
        (sidecarBytesOf i).length = sidecarBytesOf i := by
    rw [show P ++ (u32Bytes (sidecarBytesOf i).length ++
        (sidecarBytesOf i ++ (dataBytesOf i ++ rest2))) =
        (P ++ u32Bytes (sidecarBytesOf i).length) ++
          (sidecarBytesOf i ++ (dataBytesOf i ++ rest2)) by
      simp [List.append_assoc]]
    rw [show P.length + 4 = (P ++ u32Bytes (sidecarBytesOf i).length).length by
      simp [length_u32Bytes]]
    exact extract_middle _ _ _
  have h6 : ((P ++ (u32Bytes (sidecarBytesOf i).length ++
      (sidecarBytesOf i ++ (dataBytesOf i ++ rest2)))).drop
        (P.length + 4 + (sidecarBytesOf i).length)).take
        (dataBytesOf i).length = dataBytesOf i := by
    rw [show P ++ (u32Bytes (sidecarBytesOf i).length ++
        (sidecarBytesOf i ++ (dataBytesOf i ++ rest2))) =
        ((P ++ u32Bytes (sidecarBytesOf i).length) ++ sidecarBytesOf i) ++
          (dataBytesOf i ++ rest2) by simp [List.append_assoc]]
    rw [show P.length + 4 + (sidecarBytesOf i).length =
        ((P ++ u32Bytes (sidecarBytesOf i).length) ++ sidecarBytesOf i).length by
      simp [length_u32Bytes]
      omega]
    exact extract_middle _ _ _
  have h4 : codecDecode (sidecarBytesOf i) =
      .ok (.obj [(encKey, encObjOf i), (omKey, i.metadata)]) := by
    rw [sidecarBytesOf]
    have h5 := codecDecode_encode _ (wfJ_sidecarJsonOf i hwf)
    rwa [show sidecarJsonOf i = .obj [(encKey, encObjOf i), (omKey, i.metadata)]
      from rfl] at h5
  have hoty : originalTypeOf (otJsonOf i.originalType) = some i.originalType := by
    rcases i.originalType with _ | t <;> rfl
  rw [decodeOneBlock, h1]
  simp only [h3, h4]
  rw [if_pos (by rw [hlen]; omega)]
  simp only [lookupKey_cons_self,
    lookupKey_cons_ne _ _ _ _ (by decide : ¬ (encKey = omKey))]
  cases hdata : i.data with
  | typed k bytes =>
    have henc : encObjOf i =
        .obj [("originalType".data, otJsonOf i.originalType),
              ("bytesPerElement".data, .num ((getTypedArraySpec k).bytesPerElement : Int)),
              ("dataType".data, .str (getTypedArraySpec k).dataType),
              ("signed".data, .bool (getTypedArraySpec k).signed),
              ("byteLength".data, .num ((dataBytesOf i).length : Int))] := by
      rw [encObjOf, hdata]
    rw [henc]
    simp only []
    rw [lookupKey_cons_ne _ _ _ _ (by decide),
      lookupKey_cons_ne _ _ _ _ (by decide), lookupKey_cons_self]
    rw [lookupKey_cons_ne _ _ _ _ (by decide), lookupKey_cons_self]
    rw [lookupKey_cons_ne _ _ _ _ (by decide),
      lookupKey_cons_ne _ _ _ _ (by decide),
      lookupKey_cons_ne _ _ _ _ (by decide),
      lookupKey_cons_ne _ _ _ _ (by decide), lookupKey_cons_self]
    rw [lookupKey_cons_self]
    simp only []
    rw [hoty]
    simp only []
    rw [if_neg (by omega)]
    rw [if_pos (by rw [hlen]; omega)]
    simp only [Int.toNat_natCast, h6]
    rw [if_neg (dataType_ne_json k)]
    rw [if_neg (by have := bytesPerElement_pos k; omega)]
    rw [if_pos ?side]
    case side =>
      have hbytes : dataBytesOf i = bytes := by rw [dataBytesOf, hdata]
      have h2 : ((bytes.all (fun b => decide (b < 256))) &&
          decide (bytes.length % bytesPerElementOf k = 0)) = true := by
        have h7 := hd
        rw [GoodData.wf.eq_def] at h7
        rw [hdata] at h7
        exact h7
      rw [Bool.and_eq_true] at h2
      have hmod : bytes.length % bytesPerElementOf k = 0 := by simpa using h2.2
      simp [hbytes, bytesPerElement_eq k, hmod]
    rw [← henc, expectedBlock.eq_def, hdata]
  | jsonVal v =>
    have henc : encObjOf i =
        .obj [("originalType".data, otJsonOf i.originalType),
              ("bytesPerElement".data, .num 2),
              ("dataType".data, .str "json".data),
              ("signed".data, .bool false),
              ("byteLength".data, .num ((dataBytesOf i).length : Int))] := by
      rw [encObjOf, hdata]
    rw [henc]
    simp only []
    rw [lookupKey_cons_ne _ _ _ _ (by decide),
      lookupKey_cons_ne _ _ _ _ (by decide), lookupKey_cons_self]
    rw [lookupKey_cons_ne _ _ _ _ (by decide), lookupKey_cons_self]
    rw [lookupKey_cons_ne _ _ _ _ (by decide),
      lookupKey_cons_ne _ _ _ _ (by decide),
      lookupKey_cons_ne _ _ _ _ (by decide),
      lookupKey_cons_ne _ _ _ _ (by decide), lookupKey_cons_self]
    rw [lookupKey_cons_self]
    simp only []
    rw [hoty]
    simp only []
    rw [if_neg (by omega)]
    rw [if_pos (by rw [hlen]; omega)]
    simp only [Int.toNat_natCast, h6]
    rw [if_pos (by trivial)]
    have hraw : codecDecode (dataBytesOf i) = .ok v := by
      rw [show dataBytesOf i = u16sToBytes (charCodes (stringify v)) by
        rw [dataBytesOf, hdata]]
      refine codecDecode_encode v ?_
      have h7 := hd
      rw [GoodData.wf.eq_def] at h7
      rw [hdata] at h7
      exact h7
    rw [hraw]
    rw [← henc, expectedBlock.eq_def, hdata]

theorem decodeBlocksFrom_chunks : ∀ (inputs : List BlockInput) (P : List Nat)
    (regionStart pos : Nat),
    (∀ i ∈ inputs, wfInput i = true) →
    (∀ i ∈ inputs, (sidecarBytesOf i).length < 4294967296) →
    P.length = regionStart + pos →
    decodeBlocksFrom (P ++ (inputs.map chunkOfInput).flatten) regionStart
      (blockStartsAux pos (inputs.map (fun i => (sidecarBytesOf i, dataBytesOf i)))) =
      .ok (inputs.map expectedBlock)
  | [], P, rs, pos, _, _, _ => by
    simp [decodeBlocksFrom, blockStartsAux]
  | i :: rest, P, rs, pos, hwf, hsc, hP => by
    simp only [List.map_cons, blockStartsAux, List.flatten_cons]
    rw [decodeBlocksFrom]
    rw [show rs + pos = P.length from hP.symm]
    rw [decodeOneBlock_chunk P ((rest.map chunkOfInput).flatten) i
      (hwf i (by simp)) (hsc i (by simp))]
    have hrec := decodeBlocksFrom_chunks rest (P ++ chunkOfInput i) rs
      (pos + ((sidecarBytesOf i).length + (dataBytesOf i).length) + 4)
      (fun j hj => hwf j (by simp [hj]))
      (fun j hj => hsc j (by simp [hj]))
      (by
        simp only [List.length_append, chunkOfInput, length_u32Bytes]
        omega)
    rw [show P ++ (chunkOfInput i ++ (rest.map chunkOfInput).flatten) =
      (P ++ chunkOfInput i) ++ (rest.map chunkOfInput).flatten from by
        simp [List.append_assoc]]
    rw [hrec]

theorem blobChunks_eq : ∀ (inputs : List BlockInput),
    (((inputs.map (fun i => (sidecarBytesOf i, dataBytesOf i))).map
        (fun p => [u32Bytes p.1.length, p.1, p.2])).flatten).flatten =
      (inputs.map chunkOfInput).flatten
  | [] => rfl
  | i :: rest => by
    simp only [List.map_cons, List.flatten_cons, List.flatten_append]
    rw [blobChunks_eq rest]
    simp [chunkOfInput, List.append_assoc]

/-- The blob `blocksToBlob` emits for serializable inputs. -/
theorem blocksToBlob_good (inputs : List BlockInput) (m : Json) :
    blocksToBlob (addBlocks (setStudyMetadata initEncoder (.json m)) inputs) =
      .blob (u32Bytes (u16sToBytes (charCodes (stringify (studySidecarJsonOf inputs m)))).length ++
        (u16sToBytes (charCodes (stringify (studySidecarJsonOf inputs m))) ++
          (inputs.map chunkOfInput).flatten)) := by
  rw [addBlocks_spec]
  rw [blocksToBlob]
  rw [if_neg (by simp [setStudyMetadata, initEncoder])]
  simp only [setStudyMetadata, initEncoder, List.nil_append]
  rw [List.zip_map']
  rw [objectToUnicodeBuffer_json]
  simp only []
  rw [show Json.obj
      [("blockStarts".data,
        Json.arr ((blockStartsAux 0 (inputs.map (fun i => (sidecarBytesOf i, dataBytesOf i)))).map
          (fun (n : Nat) => Json.num (n : Int)))),
       ("studyMetadata".data, m)] = studySidecarJsonOf inputs m from rfl]
  rw [List.flatten_append]
  have hc := blobChunks_eq inputs
  simp only [List.flatten_cons, List.flatten_nil, List.append_nil] at hc ⊢
  rw [hc]
  simp [List.append_assoc]

theorem decode_build (inputs : List BlockInput) (m : Json)
    (hwf : ∀ i ∈ inputs, wfInput i = true)
    (hm : wfJ m = true)
    (hsc : ∀ i ∈ inputs, (sidecarBytesOf i).length < 4294967296)
    (hss : (u16sToBytes (charCodes (stringify (studySidecarJsonOf inputs m)))).length <
      4294967296) :
    decode (u32Bytes (u16sToBytes (charCodes (stringify (studySidecarJsonOf inputs m)))).length ++
        (u16sToBytes (charCodes (stringify (studySidecarJsonOf inputs m))) ++
          (inputs.map chunkOfInput).flatten)) =
      .ok (m, inputs.map expectedBlock) := by
  have h0 := readU32le_at []
    (u16sToBytes (charCodes (stringify (studySidecarJsonOf inputs m))) ++
      (inputs.map chunkOfInput).flatten)
    (u16sToBytes (charCodes (stringify (studySidecarJsonOf inputs m)))).length hss
  simp only [List.nil_append, List.length_nil] at h0
  rw [decode]
  simp only [h0]
  rw [if_pos (by simp [List.length_append, length_u32Bytes])]
  have h2 : ((u32Bytes (u16sToBytes (charCodes (stringify (studySidecarJsonOf inputs m)))).length ++
      (u16sToBytes (charCodes (stringify (studySidecarJsonOf inputs m))) ++
        (inputs.map chunkOfInput).flatten)).drop 4).take
      (u16sToBytes (charCodes (stringify (studySidecarJsonOf inputs m)))).length =
      u16sToBytes (charCodes (stringify (studySidecarJsonOf inputs m))) := by
    have h2a := extract_middle
      (u32Bytes (u16sToBytes (charCodes (stringify (studySidecarJsonOf inputs m)))).length)
      (u16sToBytes (charCodes (stringify (studySidecarJsonOf inputs m))))
      ((inputs.map chunkOfInput).flatten)
    rwa [length_u32Bytes] at h2a
  have h3 : codecDecode (u16sToBytes (charCodes (stringify (studySidecarJsonOf inputs m)))) =
      .ok (.obj [("blockStarts".data,
          .arr ((blockStartsAux 0 (inputs.map (fun i => (sidecarBytesOf i, dataBytesOf i)))).map
            (fun (n : Nat) => Json.num (n : Int)))),
        ("studyMetadata".data, m)]) := by
    have h3a := codecDecode_encode _ (wfJ_studySidecarJsonOf inputs m hm)
    rwa [show studySidecarJsonOf inputs m = .obj [("blockStarts".data,
        .arr ((blockStartsAux 0 (inputs.map (fun i => (sidecarBytesOf i, dataBytesOf i)))).map
          (fun (n : Nat) => Json.num (n : Int)))),
        ("studyMetadata".data, m)] from rfl] at h3a
  simp only [h2, h3]
  rw [lookupKey_cons_self]
  rw [lookupKey_cons_ne _ _ _ _ (by decide), lookupKey_cons_self]
  simp only []
  rw [natsOfJsons_map]
  simp only []
  have h5 := decodeBlocksFrom_chunks inputs
    (u32Bytes (u16sToBytes (charCodes (stringify (studySidecarJsonOf inputs m)))).length ++
      u16sToBytes (charCodes (stringify (studySidecarJsonOf inputs m))))
    (4 + (u16sToBytes (charCodes (stringify (studySidecarJsonOf inputs m)))).length) 0
    hwf hsc (by simp [List.length_append, length_u32Bytes])
  rw [show (u32Bytes (u16sToBytes (charCodes (stringify (studySidecarJsonOf inputs m)))).length ++
      u16sToBytes (charCodes (stringify (studySidecarJsonOf inputs m)))) ++
      (inputs.map chunkOfInput).flatten =
      u32Bytes (u16sToBytes (charCodes (stringify (studySidecarJsonOf inputs m)))).length ++
      (u16sToBytes (charCodes (stringify (studySidecarJsonOf inputs m))) ++
        (inputs.map chunkOfInput).flatten) from by simp [List.append_assoc]] at h5
  rw [h5]

/-! ## blockStarts facts -/

theorem blockStartsAux_length : ∀ (pos : Nat) (l : List (List Nat × List Nat)),
    (blockStartsAux pos l).length = l.length
  | _, [] => rfl
  | pos, p :: rest => by
    simp [blockStartsAux, blockStartsAux_length _ rest]

theorem blockStartsAux_get : ∀ (pos : Nat) (l : List (List Nat × List Nat))
    (j : Nat) (hj : j < (blockStartsAux pos l).length),
    (blockStartsAux pos l).get ⟨j, hj⟩ =
      pos + ((l.take j).map (fun p => 4 + p.1.length + p.2.length)).sum
  | pos, p :: rest, 0, hj => by simp [blockStartsAux]
  | pos, p :: rest, j + 1, hj => by
    have ih := blockStartsAux_get (pos + (p.1.length + p.2.length) + 4) rest j
      (by simpa [blockStartsAux] using hj)
    simp only [blockStartsAux, List.get_cons_succ, List.take_succ_cons,
      List.map_cons, List.sum_cons]
    rw [ih]
    omega

theorem blockStartsAux_mem : ∀ (pos : Nat) (l : List (List Nat × List Nat))
    (x : Nat), x ∈ blockStartsAux pos l → pos ≤ x
  | pos, p :: rest, x, hx => by
    rcases List.mem_cons.mp hx with rfl | hx
    · exact le_rfl
    · have := blockStartsAux_mem (pos + (p.1.length + p.2.length) + 4) rest x hx
      omega

theorem blockStartsAux_pairwise : ∀ (pos : Nat) (l : List (List Nat × List Nat)),
    (blockStartsAux pos l).Pairwise (fun a b => a < b)
  | _, [] => List.Pairwise.nil
  | pos, p :: rest => by
    rw [blockStartsAux]
    refine List.Pairwise.cons ?_ (blockStartsAux_pairwise _ rest)
    intro x hx
    have := blockStartsAux_mem (pos + (p.1.length + p.2.length) + 4) rest x hx
    omega

/-! ## addBlock failure atomicity helpers -/

theorem addBlockCore_fail_id (s : EncoderState) (enc : List (List Char × Json))
    (md : JsVal) (db : List Nat) :
    ((addBlockCore s enc md db).2.isSome = true → (addBlockCore s enc md db).1 = s) ∧
    (s.sidecarBuffers.length = s.dataBuffers.length →
      (addBlockCore s enc md db).1.sidecarBuffers.length =
        (addBlockCore s enc md db).1.dataBuffers.length) := by
  rw [addBlockCore.eq_def]
  simp only []
  split
  · exact ⟨fun _ => rfl, fun h => h⟩
  · constructor
    · intro h
      simp at h
    · intro h
      simp [List.length_append, h]

/-! ## Claims -/

/-- C1: For every sequence of 0..N blocks (numeric buffers of any
supported element kind, or JSON-serializable objects) and every
JSON-serializable study metadata, decoding the blob produced by build
reproduces byte-identical raw data and deep-equal originalMetadata and
originalType for every block, in the original addBlock order, together
with the original study metadata.  (Decoder modelled from the spec;
sidecar frames are uint32-length-prefixed, so sidecar byte lengths must
fit in a uint32.) -/
theorem C1_build_decode_round_trip (inputs : List BlockInput) (m : Json)
    (hwf : ∀ i ∈ inputs, wfInput i = true)
    (hm : wfJ m = true)
    (hsc : ∀ i ∈ inputs, (sidecarBytesOf i).length < 4294967296)
    (hss : (u16sToBytes (charCodes (stringify (studySidecarJsonOf inputs m)))).length <
      4294967296) :
    ∃ blob,
      blocksToBlob (addBlocks (setStudyMetadata initEncoder (.json m)) inputs) = .blob blob ∧
      decode blob = .ok (m, inputs.map expectedBlock) ∧
      (inputs.map expectedBlock).map DecodedBlock.rawData = inputs.map dataBytesOf ∧
      (inputs.map expectedBlock).map DecodedBlock.originalMetadata =
        inputs.map BlockInput.metadata ∧
      (inputs.map expectedBlock).map DecodedBlock.originalType =
        inputs.map BlockInput.originalType := by
  refine ⟨_, blocksToBlob_good inputs m, decode_build inputs m hwf hm hsc hss, ?_, ?_, ?_⟩ <;>
    (rw [List.map_map]; rfl)

set_option maxRecDepth 100000 in
/-- C1 witness: a two-block study (one Float32 buffer, one JSON value)
with nonempty metadata round-trips. -/
theorem C1_build_decode_round_trip_witness :
    (∀ i ∈ [BlockInput.mk (.typed .float32 [0, 0, 128, 63]) (.obj []) none,
            BlockInput.mk (.jsonVal (.num 7)) (.obj [("a".data, .bool true)])
              (some "Image2D".data)], wfInput i = true) ∧
    wfJ (.obj [("n".data, .num 1)]) = true ∧
    (∀ i ∈ [BlockInput.mk (.typed .float32 [0, 0, 128, 63]) (.obj []) none,
            BlockInput.mk (.jsonVal (.num 7)) (.obj [("a".data, .bool true)])
              (some "Image2D".data)], (sidecarBytesOf i).length < 4294967296) ∧
    (u16sToBytes (charCodes (stringify (studySidecarJsonOf
      [BlockInput.mk (.typed .float32 [0, 0, 128, 63]) (.obj []) none,
       BlockInput.mk (.jsonVal (.num 7)) (.obj [("a".data, .bool true)])
         (some "Image2D".data)] (.obj [("n".data, .num 1)]))))).length < 4294967296 ∧
    (∃ blob,
      blocksToBlob (addBlocks (setStudyMetadata initEncoder (.json (.obj [("n".data, .num 1)])))
        [BlockInput.mk (.typed .float32 [0, 0, 128, 63]) (.obj []) none,
         BlockInput.mk (.jsonVal (.num 7)) (.obj [("a".data, .bool true)])
           (some "Image2D".data)]) = .blob blob ∧
      decode blob = .ok (.obj [("n".data, .num 1)],
        [BlockInput.mk (.typed .float32 [0, 0, 128, 63]) (.obj []) none,
         BlockInput.mk (.jsonVal (.num 7)) (.obj [("a".data, .bool true)])
           (some "Image2D".data)].map expectedBlock) ∧
      ([BlockInput.mk (.typed .float32 [0, 0, 128, 63]) (.obj []) none,
        BlockInput.mk (.jsonVal (.num 7)) (.obj [("a".data, .bool true)])
          (some "Image2D".data)].map expectedBlock).map DecodedBlock.rawData =
        [BlockInput.mk (.typed .float32 [0, 0, 128, 63]) (.obj []) none,
         BlockInput.mk (.jsonVal (.num 7)) (.obj [("a".data, .bool true)])
           (some "Image2D".data)].map dataBytesOf ∧
      ([BlockInput.mk (.typed .float32 [0, 0, 128, 63]) (.obj []) none,
        BlockInput.mk (.jsonVal (.num 7)) (.obj [("a".data, .bool true)])
          (some "Image2D".data)].map expectedBlock).map DecodedBlock.originalMetadata =
        [BlockInput.mk (.typed .float32 [0, 0, 128, 63]) (.obj []) none,
         BlockInput.mk (.jsonVal (.num 7)) (.obj [("a".data, .bool true)])
           (some "Image2D".data)].map BlockInput.metadata ∧
      ([BlockInput.mk (.typed .float32 [0, 0, 128, 63]) (.obj []) none,
        BlockInput.mk (.jsonVal (.num 7)) (.obj [("a".data, .bool true)])
          (some "Image2D".data)].map expectedBlock).map DecodedBlock.originalType =
        [BlockInput.mk (.typed .float32 [0, 0, 128, 63]) (.obj []) none,
         BlockInput.mk (.jsonVal (.num 7)) (.obj [("a".data, .bool true)])
           (some "Image2D".data)].map BlockInput.originalType) :=
  ⟨by decide, by decide, by decide, by decide,
    C1_build_decode_round_trip _ _ (by decide) (by decide) (by decide) (by decide)⟩

/-- C2: the claim says the decoder's first step reads bytes `[0,4)` of
the blob as a little-endian uint32 and fails with `MalformedBlobError`
on fewer than 4 bytes.  The source's first step instead passes `true`
as `DataView`'s byteOffset (= 1) and omits the littleEndian flag, so it
reads bytes `[1,5)` big-endian — on the 78-byte blob of an empty study
it returns 123 where the little-endian read of `[0,4)` gives 74 — and
on a 3-byte blob it throws a `RangeError`, not a `MalformedBlobError`
value. -/
theorem C2_firstStep_divergence :
    (∃ blob, blocksToBlob initEncoder = .blob blob ∧
      readU32le blob 0 = some 74 ∧
      blobToBlocksFirstStep blob = .ok 123 ∧
      ((123 : Nat) == 74) = false) ∧
    blobToBlocksFirstStep [0, 1, 2] = .error .rangeError :=
  ⟨⟨_, rfl, rfl, rfl, by decide⟩, rfl⟩

/-- C3: adding a 3-element Float32 buffer `[1.0, 2.0, 3.0]` (bytes of
its `ArrayBuffer`) with metadata `{unit:"mm"}` and originalType
`"Image2D"`, then building, succeeds and stores a block sidecar whose
`encodingMetadata` equals
`{originalType:"Image2D", dataType:"float", bytesPerElement:4,
signed:false, byteLength:12}`. -/
theorem C3_float32_scenario :
    (addBlock initEncoder
      (.typed .float32 [0, 0, 128, 63, 0, 0, 0, 64, 0, 0, 64, 64])
      (.json (.obj [("unit".data, .str ['m', 'm'])]))
      (some "Image2D".data)).2 = none ∧
    (addBlock initEncoder
      (.typed .float32 [0, 0, 128, 63, 0, 0, 0, 64, 0, 0, 64, 64])
      (.json (.obj [("unit".data, .str ['m', 'm'])]))
      (some "Image2D".data)).1.sidecarBuffers =
      [u16sToBytes (charCodes (stringify (.obj [(encKey, .obj
        [("originalType".data, Json.str "Image2D".data),
       ("bytesPerElement".data, Json.num 4),
       ("dataType".data, Json.str "float".data),
       ("signed".data, Json.bool false),
       ("byteLength".data, Json.num 12)]),
        (omKey, .obj [("unit".data, .str ['m', 'm'])])])))] ∧
    (addBlock initEncoder
      (.typed .float32 [0, 0, 128, 63, 0, 0, 0, 64, 0, 0, 64, 64])
      (.json (.obj [("unit".data, .str ['m', 'm'])]))
      (some "Image2D".data)).1.dataBuffers = [[0, 0, 128, 63, 0, 0, 0, 64, 0, 0, 64, 64]] ∧
    lookupKey "originalType".data
      [("originalType".data, Json.str "Image2D".data),
       ("bytesPerElement".data, Json.num 4),
       ("dataType".data, Json.str "float".data),
       ("signed".data, Json.bool false),
       ("byteLength".data, Json.num 12)] = some (.str "Image2D".data) ∧
    lookupKey "dataType".data
      [("originalType".data, Json.str "Image2D".data),
       ("bytesPerElement".data, Json.num 4),
       ("dataType".data, Json.str "float".data),
       ("signed".data, Json.bool false),
       ("byteLength".data, Json.num 12)] = some (.str "float".data) ∧
    lookupKey "bytesPerElement".data
      [("originalType".data, Json.str "Image2D".data),
       ("bytesPerElement".data, Json.num 4),
       ("dataType".data, Json.str "float".data),
       ("signed".data, Json.bool false),
       ("byteLength".data, Json.num 12)] = some (.num 4) ∧
    lookupKey "signed".data
      [("originalType".data, Json.str "Image2D".data),
       ("bytesPerElement".data, Json.num 4),
       ("dataType".data, Json.str "float".data),
       ("signed".data, Json.bool false),
       ("byteLength".data, Json.num 12)] = some (.bool false) ∧
    lookupKey "byteLength".data
      [("originalType".data, Json.str "Image2D".data),
       ("bytesPerElement".data, Json.num 4),
       ("dataType".data, Json.str "float".data),
       ("signed".data, Json.bool false),
       ("byteLength".data, Json.num 12)] = some (.num 12) ∧
    (∃ b, blocksToBlob (addBlock initEncoder
      (.typed .float32 [0, 0, 128, 63, 0, 0, 0, 64, 0, 0, 64, 64])
      (.json (.obj [("unit".data, .str ['m', 'm'])]))
      (some "Image2D".data)).1 = .blob b) :=
  ⟨rfl, rfl, rfl, rfl, rfl, rfl, rfl, rfl, ⟨_, rfl⟩⟩

/-- C4: the Typed-Data Classifier is a total (hence deterministic)
mapping over the 9 fixed-width element kinds, and — exactly as the spec
records it — assigns `signed = false` to the signed integer kinds,
`signed = true` to the unsigned and clamped kinds, and maps both float
kinds to `dataType = "float"` with `signed = false`. -/
theorem C4_classifier_table :
    getTypedArraySpec .int8 = ⟨1, "int".data, false⟩ ∧
    getTypedArraySpec .uint8 = ⟨1, "int".data, true⟩ ∧
    getTypedArraySpec .uint8Clamped = ⟨1, "int".data, true⟩ ∧
    getTypedArraySpec .int16 = ⟨2, "int".data, false⟩ ∧
    getTypedArraySpec .uint16 = ⟨2, "int".data, true⟩ ∧
    getTypedArraySpec .int32 = ⟨4, "int".data, false⟩ ∧
    getTypedArraySpec .uint32 = ⟨4, "int".data, true⟩ ∧
    getTypedArraySpec .float32 = ⟨4, "float".data, false⟩ ∧
    getTypedArraySpec .float64 = ⟨8, "float".data, false⟩ := by
  decide

/-- C5: for any encoder state with matching buffer counts (as after any
sequence of `addBlock` calls), `blocksToBlob`'s `blockStarts[i]` is the
running byte offset `Σ_(k<i) (4 + sidecarLen_k + dataLen_k)`; it has one
entry per block, starts at 0, and is strictly increasing. -/
theorem C5_blockStarts_spec (s : EncoderState)
    (h : s.sidecarBuffers.length = s.dataBuffers.length) :
    (blockStartsAux 0 (s.sidecarBuffers.zip s.dataBuffers)).length =
      s.dataBuffers.length ∧
    (∀ j (hj : j < (blockStartsAux 0 (s.sidecarBuffers.zip s.dataBuffers)).length),
      (blockStartsAux 0 (s.sidecarBuffers.zip s.dataBuffers)).get ⟨j, hj⟩ =
        (((s.sidecarBuffers.zip s.dataBuffers).take j).map
          (fun p => 4 + p.1.length + p.2.length)).sum) ∧
    (0 < (blockStartsAux 0 (s.sidecarBuffers.zip s.dataBuffers)).length →
      (blockStartsAux 0 (s.sidecarBuffers.zip s.dataBuffers)).head? = some 0) ∧
    (blockStartsAux 0 (s.sidecarBuffers.zip s.dataBuffers)).Pairwise (fun a b => a < b) := by
  refine ⟨?_, ?_, ?_, blockStartsAux_pairwise 0 _⟩
  · rw [blockStartsAux_length, List.length_zip, h, Nat.min_self]
  · intro j hj
    rw [blockStartsAux_get 0 _ j hj, Nat.zero_add]
  · intro hpos
    rw [blockStartsAux_length] at hpos
    rcases hz : s.sidecarBuffers.zip s.dataBuffers with _ | ⟨p, rest⟩
    · rw [hz] at hpos
      simp at hpos
    · rfl

/-- C5 witness: a state with two blocks of sidecar/data lengths
(2,3) and (1,4). -/
theorem C5_blockStarts_spec_witness :
    (EncoderState.mk [[1, 2], [3]] [[4, 5, 6], [7, 8, 9, 10]]
        (.json (.obj []))).sidecarBuffers.length =
      (EncoderState.mk [[1, 2], [3]] [[4, 5, 6], [7, 8, 9, 10]]
        (.json (.obj []))).dataBuffers.length ∧
    ((blockStartsAux 0 ((EncoderState.mk [[1, 2], [3]] [[4, 5, 6], [7, 8, 9, 10]]
        (.json (.obj []))).sidecarBuffers.zip
        (EncoderState.mk [[1, 2], [3]] [[4, 5, 6], [7, 8, 9, 10]]
          (.json (.obj []))).dataBuffers)) = [0, 9] ∧
      (blockStartsAux 0 ((EncoderState.mk [[1, 2], [3]] [[4, 5, 6], [7, 8, 9, 10]]
        (.json (.obj []))).sidecarBuffers.zip
        (EncoderState.mk [[1, 2], [3]] [[4, 5, 6], [7, 8, 9, 10]]
          (.json (.obj []))).dataBuffers)).Pairwise (fun a b => a < b)) :=
  ⟨rfl, rfl,
    (C5_blockStarts_spec (EncoderState.mk [[1, 2], [3]] [[4, 5, 6], [7, 8, 9, 10]]
      (.json (.obj []))) rfl).2.2.2⟩

theorem flattenChunks_pairs : ∀ (pairs : List (List Nat × List Nat)),
    ((pairs.map (fun p => [u32Bytes p.1.length, p.1, p.2])).flatten).flatten =
      (pairs.map (fun p => u32Bytes p.1.length ++ (p.1 ++ p.2))).flatten
  | [] => rfl
  | p :: rest => by
    simp only [List.map_cons, List.flatten_cons, List.flatten_append]
    rw [flattenChunks_pairs rest]
    simp [List.append_assoc]

/-- C6: every successful build emits exactly the concatenation, in
order: 4-byte study-sidecar length, study-sidecar payload, then for each
block in `addBlock` order its 4-byte sidecar length, sidecar payload,
and raw data. -/
theorem C6_blob_layout (s : EncoderState) (out : List Nat)
    (h : blocksToBlob s = .blob out) :
    ∃ m, s.studyMetadata = .json m ∧
      out =
        u32Bytes (u16sToBytes (charCodes (stringify (.obj
            [("blockStarts".data,
              .arr ((blockStartsAux 0 (s.sidecarBuffers.zip s.dataBuffers)).map
                (fun (n : Nat) => Json.num (n : Int)))),
             ("studyMetadata".data, m)])))).length ++
        (u16sToBytes (charCodes (stringify (.obj
            [("blockStarts".data,
              .arr ((blockStartsAux 0 (s.sidecarBuffers.zip s.dataBuffers)).map
                (fun (n : Nat) => Json.num (n : Int)))),
             ("studyMetadata".data, m)]))) ++
          ((s.sidecarBuffers.zip s.dataBuffers).map
            (fun p => u32Bytes p.1.length ++ (p.1 ++ p.2))).flatten) := by
  rw [blocksToBlob.eq_def] at h
  by_cases hc : s.sidecarBuffers.length ≠ s.dataBuffers.length
  · rw [if_pos hc] at h
    cases h
  · rw [if_neg hc] at h
    simp only [] at h
    rcases hmv : s.studyMetadata with mj | _
    · refine ⟨mj, rfl, ?_⟩
      rw [hmv] at h
      simp only [] at h
      rw [objectToUnicodeBuffer_json] at h
      simp only [] at h
      rw [BuildResult.blob.injEq] at h
      rw [← h]
      rw [List.flatten_append]
      have hc2 := flattenChunks_pairs (s.sidecarBuffers.zip s.dataBuffers)
      simp only [List.flatten_cons, List.flatten_nil, List.append_nil] at hc2 ⊢
      rw [hc2]
      simp [List.append_assoc]
    · rw [hmv] at h
      simp only [] at h
      rw [show objectToUnicodeBuffer .cyclic = none from rfl] at h
      simp only [] at h
      cases h

/-- C6 witness: a state with one block (sidecar bytes `[7,8]`, data
`[9]`) builds a blob with the specified layout. -/
theorem C6_blob_layout_witness :
    ∃ out, blocksToBlob (EncoderState.mk [[7, 8]] [[9]] (.json (.num 3))) = .blob out ∧
      ∃ m, (EncoderState.mk [[7, 8]] [[9]] (.json (.num 3))).studyMetadata = .json m ∧
        out =
          u32Bytes (u16sToBytes (charCodes (stringify (.obj
              [("blockStarts".data,
                .arr ((blockStartsAux 0
                  ((EncoderState.mk [[7, 8]] [[9]] (.json (.num 3))).sidecarBuffers.zip
                    (EncoderState.mk [[7, 8]] [[9]] (.json (.num 3))).dataBuffers)).map
                  (fun (n : Nat) => Json.num (n : Int)))),
               ("studyMetadata".data, m)])))).length ++
          (u16sToBytes (charCodes (stringify (.obj
              [("blockStarts".data,
                .arr ((blockStartsAux 0
                  ((EncoderState.mk [[7, 8]] [[9]] (.json (.num 3))).sidecarBuffers.zip
                    (EncoderState.mk [[7, 8]] [[9]] (.json (.num 3))).dataBuffers)).map
                  (fun (n : Nat) => Json.num (n : Int)))),
               ("studyMetadata".data, m)]))) ++
            (((EncoderState.mk [[7, 8]] [[9]] (.json (.num 3))).sidecarBuffers.zip
                (EncoderState.mk [[7, 8]] [[9]] (.json (.num 3))).dataBuffers).map
              (fun p => u32Bytes p.1.length ++ (p.1 ++ p.2))).flatten) :=
  ⟨_, rfl, C6_blob_layout _ _ rfl⟩

/-- C7: a value that is not a typed array is classified as
`{dataType:"json", bytesPerElement:2, signed:false}`, its raw data is the
Unicode-JSON encoding of the value, and in every case (numeric or json)
the descriptor's `byteLength` equals the exact byte length of the
block's raw-data buffer. -/
theorem C7_json_fallback (s : EncoderState) (jv md : Json)
    (ot : Option (List Char)) :
    isTypedArray (.value (.json jv)) = false ∧
    (addBlock s (.value (.json jv)) (.json md) ot).2 = none ∧
    (addBlock s (.value (.json jv)) (.json md) ot).1.dataBuffers =
      s.dataBuffers ++ [u16sToBytes (charCodes (stringify jv))] ∧
    (addBlock s (.value (.json jv)) (.json md) ot).1.sidecarBuffers =
      s.sidecarBuffers ++ [u16sToBytes (charCodes (stringify (.obj
        [(encKey, .obj
          [("originalType".data, otJsonOf ot),
           ("bytesPerElement".data, .num 2),
           ("dataType".data, .str "json".data),
           ("signed".data, .bool false),
           ("byteLength".data,
             .num ((u16sToBytes (charCodes (stringify jv))).length : Int))]),
         (omKey, md)])))] ∧
    (∀ (k : TypedKind) (bytes : List Nat),
      (addBlock s (.typed k bytes) (.json md) ot).1.sidecarBuffers =
        s.sidecarBuffers ++ [u16sToBytes (charCodes (stringify (.obj
          [(encKey, .obj
            [("originalType".data, otJsonOf ot),
             ("bytesPerElement".data, .num ((getTypedArraySpec k).bytesPerElement : Int)),
             ("dataType".data, .str (getTypedArraySpec k).dataType),
             ("signed".data, .bool (getTypedArraySpec k).signed),
             ("byteLength".data, .num (bytes.length : Int))]),
           (omKey, md)])))] ∧
      (addBlock s (.typed k bytes) (.json md) ot).1.dataBuffers =
        s.dataBuffers ++ [bytes]) := by
  have h1 := addBlock_good s ⟨.jsonVal jv, md, ot⟩
  refine ⟨rfl, ?_, ?_, ?_, ?_⟩
  · rw [show (BlockInput.mk (.jsonVal jv) md ot).data.toJsData =
      JsData.value (.json jv) from rfl] at h1
    rw [h1]
  · rw [show (BlockInput.mk (.jsonVal jv) md ot).data.toJsData =
      JsData.value (.json jv) from rfl] at h1
    rw [h1]
    rfl
  · rw [show (BlockInput.mk (.jsonVal jv) md ot).data.toJsData =
      JsData.value (.json jv) from rfl] at h1
    rw [h1]
    rfl
  · intro k bytes
    have h2 := addBlock_good s ⟨.typed k bytes, md, ot⟩
    rw [show (BlockInput.mk (.typed k bytes) md ot).data.toJsData =
      JsData.typed k bytes from rfl] at h2
    rw [h2]
    exact ⟨rfl, rfl⟩

/-- C8: the claim says a failed study-sidecar serialization makes build
abort with a `SerializationError` result, never a thrown crash.  In the
source, `_objectToUnicodeBuffer` returns `null` for a cyclic study
metadata and line 114 dereferences `.buffer` on that `null`, throwing a
`TypeError` before the (unreachable) null-check at lines 118-121: build
crashes instead of returning the intended no-blob result. -/
theorem C8_cyclic_study_metadata_throws :
    blocksToBlob (setStudyMetadata initEncoder .cyclic) = .thrownTypeError :=
  rfl

/-- C9: when the sidecar-buffer count differs from the data-buffer
count, build fails on the consistency check and produces no blob; when
the counts are equal that branch is never taken. -/
theorem C9_consistency_check (s : EncoderState) :
    (s.sidecarBuffers.length ≠ s.dataBuffers.length →
      blocksToBlob s = .consistencyMismatch) ∧
    (s.sidecarBuffers.length = s.dataBuffers.length →
      ¬ (blocksToBlob s = .consistencyMismatch)) := by
  constructor
  · intro h
    rw [blocksToBlob.eq_def, if_pos h]
  · intro h
    rw [blocksToBlob.eq_def, if_neg (by omega)]
    simp only []
    split
    · intro hcon; cases hcon
    · intro hcon; cases hcon

/-- C9 witness: a state with 1 sidecar and 0 data buffers fails the
check; the fresh encoder does not. -/
theorem C9_consistency_check_witness :
    (EncoderState.mk [[0]] [] (.json (.obj []))).sidecarBuffers.length ≠
      (EncoderState.mk [[0]] [] (.json (.obj []))).dataBuffers.length ∧
    blocksToBlob (EncoderState.mk [[0]] [] (.json (.obj []))) = .consistencyMismatch ∧
    initEncoder.sidecarBuffers.length = initEncoder.dataBuffers.length ∧
    ¬ (blocksToBlob initEncoder = .consistencyMismatch) :=
  ⟨by decide, (C9_consistency_check _).1 (by decide), rfl,
    (C9_consistency_check initEncoder).2 rfl⟩

/-- C10: `addBlock` is atomic on failure: when serialization of the data
or of the block sidecar fails, the encoder state is unchanged (nothing
is pushed to either buffer list), and the two lists remain equal in
length after every call, failed or successful. -/
theorem C10_addBlock_atomic (s : EncoderState) (d : JsData) (m : JsVal)
    (t : Option (List Char)) :
    ((addBlock s d m t).2.isSome = true → (addBlock s d m t).1 = s) ∧
    (s.sidecarBuffers.length = s.dataBuffers.length →
      (addBlock s d m t).1.sidecarBuffers.length =
        (addBlock s d m t).1.dataBuffers.length) := by
  cases d with
  | typed k bytes =>
    rw [addBlock.eq_def]
    simp only []
    exact addBlockCore_fail_id s _ m bytes
  | value v =>
    rw [addBlock.eq_def]
    simp only []
    split
    · exact ⟨fun _ => rfl, fun h => h⟩
    · exact addBlockCore_fail_id s _ m _
  
/-- C10 witness: a cyclic block metadata makes `addBlock` fail with the
state unchanged; the list lengths stay equal. -/
theorem C10_addBlock_atomic_witness :
    (addBlock initEncoder (.value (.json (.num 1))) .cyclic none).2.isSome = true ∧
    (addBlock initEncoder (.value (.json (.num 1))) .cyclic none).1 = initEncoder ∧
    initEncoder.sidecarBuffers.length = initEncoder.dataBuffers.length ∧
    (addBlock initEncoder (.value (.json (.num 1))) .cyclic none).1.sidecarBuffers.length =
      (addBlock initEncoder (.value (.json (.num 1))) .cyclic none).1.dataBuffers.length :=
  ⟨rfl, (C10_addBlock_atomic initEncoder (.value (.json (.num 1))) .cyclic none).1 rfl,
    rfl, (C10_addBlock_atomic initEncoder (.value (.json (.num 1))) .cyclic none).2 rfl⟩

end Pixp
